import Mathlib

/-!
Verification development for the streaming-video-player extension.

Strings are modelled as lists of characters (`Str`).  JavaScript string
primitives used by the source (`includes`, global regex replace, `startsWith`,
`endsWith`, `toLowerCase`, `replace(/\/+$/,'')`, `decodeURIComponent`) are
given executable models below; each source function is then translated
clause by clause.
-/

namespace SVP

abbrev Str := List Char

/-- JS `s.startsWith(p)`. -/
def startsWith (p s : Str) : Bool := p.isPrefixOf s

/-- JS `s.endsWith(p)`. -/
def endsWith (p s : Str) : Bool := p.isSuffixOf s

/-- JS `s.includes(p)`: some suffix of `s` has `p` as a prefix. -/
def containsSub (s pat : Str) : Bool :=
  match s with
  | [] => pat.isEmpty
  | _ :: rest => pat.isPrefixOf s || containsSub rest pat

/-- Fuel-driven worker for `replaceAll`; `fuel ≥ s.length` is always enough,
since every step consumes at least one character of `s`. -/
def replaceAllGo (pat rep : Str) : Nat → Str → Str
  | _, [] => []
  | 0, s => s
  | fuel + 1, c :: rest =>
    if pat.isPrefixOf (c :: rest) then
      rep ++ replaceAllGo pat rep fuel (List.drop (pat.length - 1) rest)
    else
      c :: replaceAllGo pat rep fuel rest

/-- JS `s.replace(/pat/g, rep)` for a literal pattern: left-to-right,
non-overlapping, the replacement text is not rescanned. -/
def replaceAll (pat rep s : Str) : Str := replaceAllGo pat rep s.length s

/-- JS `s.replace(pat, rep)` with a *string* pattern: first occurrence only. -/
def replaceFirst (pat rep : Str) : Str → Str
  | [] => if pat.isEmpty then rep else []
  | c :: rest =>
    if pat.isPrefixOf (c :: rest) then rep ++ List.drop (pat.length - 1) rest
    else c :: replaceFirst pat rep rest

/-- JS `s.replace(/\/+$/, '')`: drop the maximal trailing run of slashes. -/
def stripTrailingSlashes (s : Str) : Str :=
  (s.reverse.dropWhile (· = '/')).reverse

/-- JS `s.toLowerCase()` (ASCII, which is all the source compares). -/
def toLower (s : Str) : Str := s.map Char.toLower

/-- Hexadecimal digit value, used by the `decodeURIComponent` model. -/
def hexVal (c : Char) : Option Nat :=
  if '0' ≤ c ∧ c ≤ '9' then some (c.toNat - 48)
  else if 'A' ≤ c ∧ c ≤ 'F' then some (c.toNat - 55)
  else if 'a' ≤ c ∧ c ≤ 'f' then some (c.toNat - 87)
  else none

/-- Model of JS `decodeURIComponent` restricted to single-byte escapes:
`%hh` decodes to the character with code `hh`; a malformed escape makes the
whole call throw (`none`), which the source catches and ignores. -/
def decodePercent : Str → Option Str
  | [] => some []
  | c :: rest =>
    if c = '%' then
      match rest with
      | h1 :: h2 :: rest2 =>
        match hexVal h1, hexVal h2 with
        | some v1, some v2 => (decodePercent rest2).map (Char.ofNat (16 * v1 + v2) :: ·)
        | _, _ => none
      | _ => none
    else (decodePercent rest).map (c :: ·)

def digitChar (d : Nat) : Char := Char.ofNat (48 + d)

def natDigitsAux : Nat → Nat → Str
  | 0, _ => []
  | fuel + 1, n => if n < 10 then [digitChar n] else natDigitsAux fuel (n / 10) ++ [digitChar (n % 10)]

/-- Model of JS `String(n)` for a non-negative integer (fuel 20 covers all
values below 10^20, far beyond any timestamp the source produces). -/
def natDigits (n : Nat) : Str := natDigitsAux 20 n

/-! ### Base64 (model of `CryptoJS.enc.Base64.stringify`) -/

def b64Table : Str :=
  "ABCDEFGHIJKLMNOPQRSTUVWXYZabcdefghijklmnopqrstuvwxyz0123456789+/".toList

def b64Char (n : Nat) : Char := b64Table.getD n 'A'

/-- Standard base64 of a byte sequence, with `=` padding. -/
def base64Chunks : List Nat → Str
  | [] => []
  | [b1] => [b64Char (b1 / 4), b64Char (b1 % 4 * 16), '=', '=']
  | [b1, b2] => [b64Char (b1 / 4), b64Char (b1 % 4 * 16 + b2 / 16), b64Char (b2 % 16 * 4), '=']
  | b1 :: b2 :: b3 :: rest =>
    b64Char (b1 / 4) :: b64Char (b1 % 4 * 16 + b2 / 16) ::
      b64Char (b2 % 16 * 4 + b3 / 64) :: b64Char (b3 % 64) :: base64Chunks rest

/-- `.replace(/=/g, '').replace(/\+/g, '-').replace(/\//g, '_')` from
`generateSecurePathHash`. -/
def urlSafeBase64 (s : Str) : Str :=
  replaceAll ['/'] ['_'] (replaceAll ['+'] ['-'] (replaceAll ['='] [] s))

/-! ### SecureURLBuilder (`useStreamUrl` in `FileFieldSection.vue`) -/

/-- The `{{host_url}}` placeholder (braces written as `\x7b`/`\x7d`). -/
def hostUrlPH : Str := "\x7b\x7bhost_url\x7d\x7d".toList

/-- The `{{token}}` placeholder. -/
def tokenPH : Str := "\x7b\x7btoken\x7d\x7d".toList

/-- The `{{expires}}` placeholder. -/
def expiresPH : Str := "\x7b\x7bexpires\x7d\x7d".toList

/-- The `{{item_field}}` placeholder. -/
def itemPH : Str := "\x7b\x7bitem_field\x7d\x7d".toList

/-- Ambient browser state: `window.location.origin` and the normalized API
base URL (empty when unavailable). -/
structure StreamEnv where
  origin : Str
  apiBaseUrl : Str

/-- `StreamUrlOptions` from the source; string options are `''` when not
configured (JS falsiness), `includeIp` defaults to `false` via `??`,
`expiresInMinutes` stays optional (`?? 60` applied at use). -/
structure StreamUrlOptions where
  hostUrl : Str
  urlSchema : Str
  streamSecret : Str
  includeIp : Bool
  expiresInMinutes : Option Nat

/-- The host-URL resolution block that appears in both branches of
`getStreamUrl`: fall back to the API base URL (with `/api` removed, first
occurrence, string-pattern `replace`) or `window.location.origin`, then force
an `http(s)://` prefix. -/
def resolveHostUrl (env : StreamEnv) (hostUrlOpt : Str) : Str :=
  let hostUrl :=
    if hostUrlOpt = [] then
      let baseUrl := if env.apiBaseUrl ≠ [] then env.apiBaseUrl else env.origin ++ "/api".toList
      let h := replaceFirst "/api".toList [] baseUrl
      if h = [] then env.origin else h
    else hostUrlOpt
  if startsWith "http://".toList hostUrl || startsWith "https://".toList hostUrl then hostUrl
  else env.origin

/-- `String(Math.round(new Date(Date.now() + expiresInMinutes*60*1000).getTime() / 1000))`
with `now` in milliseconds: `Math.round` on a non-negative value is
`⌊x + 1/2⌋`. -/
def expiresString (now expiresInMinutes : Nat) : Str :=
  natDigits ((now + expiresInMinutes * 60 * 1000 + 500) / 1000)

/-- `generateSecurePathHash` from the source.  `CryptoJS.MD5` is an external
library call, modelled by the `md5` parameter returning the 16 digest bytes.
`none` models the thrown error on an empty `expires`. -/
def generateSecurePathHash (md5 : Str → List Nat) (expires : Str) (ip : Option Str)
    (secret : Str) (includeIp : Bool) : Option Str :=
  if expires = [] then none
  else if secret = [] then some []
  else
    let ipTruthy := match ip with | some s => !s.isEmpty | none => false
    let input :=
      if includeIp && ipTruthy then
        expires ++ " ".toList ++ ip.getD [] ++ " ".toList ++ secret
      else expires ++ " ".toList ++ secret
    some (urlSafeBase64 (base64Chunks (md5 input)))

/-- `getStreamUrl` from `useStreamUrl`, clause by clause.  `md5` stands for
`CryptoJS.MD5`, `now` for `Date.now()` (ms). -/
def getStreamUrl (md5 : Str → List Nat) (now : Nat) (env : StreamEnv)
    (options : StreamUrlOptions) (streamLink : Str) : Option Str :=
  if streamLink = [] then none
  else if startsWith "http://".toList streamLink || startsWith "https://".toList streamLink then
    some streamLink
  else
    let streamSecret := options.streamSecret
    let normalizedStreamLink := if startsWith ['/'] streamLink then streamLink.drop 1 else streamLink
    if options.urlSchema ≠ [] then
      -- url_schema branch
      let urlSchema1 := (decodePercent options.urlSchema).getD options.urlSchema
      let hostUrl := stripTrailingSlashes (resolveHostUrl env options.hostUrl)
      let urlSchema2 := replaceAll hostUrlPH hostUrl urlSchema1
      let hasTokenPlaceholder := containsSub urlSchema2 tokenPH
      let hasExpiresPlaceholder := containsSub urlSchema2 expiresPH
      let hasItemPlaceholder := containsSub urlSchema2 itemPH
      let urlSchema3 :=
        if hasItemPlaceholder then replaceAll itemPH normalizedStreamLink urlSchema2
        else urlSchema2
      let signed :=
        if hasTokenPlaceholder || hasExpiresPlaceholder then
          if streamSecret = [] then
            some (replaceAll expiresPH [] (replaceAll tokenPH [] urlSchema3))
          else
            let includeIp := options.includeIp
            let ip : Option Str := if includeIp then some [] else none
            let expires := expiresString now (options.expiresInMinutes.getD 60)
            match generateSecurePathHash md5 expires ip streamSecret includeIp with
            | none => none
            | some token => some (replaceAll expiresPH expires (replaceAll tokenPH token urlSchema3))
        else some urlSchema3
      match signed with
      | none => some (env.origin ++ streamLink)  -- the catch block
      | some urlSchema4 =>
        if !hasItemPlaceholder then
          let separator := if endsWith ['/'] urlSchema4 then ([] : Str) else ['/']
          some (urlSchema4 ++ separator ++ normalizedStreamLink)
        else some urlSchema4
    else
      -- fallback branch (no url_schema)
      let hostUrlTemplate0 := resolveHostUrl env options.hostUrl
      let hostUrlTemplate1 := (decodePercent hostUrlTemplate0).getD hostUrlTemplate0
      let hostUrlTemplate := stripTrailingSlashes hostUrlTemplate1
      let streamLink2 := if startsWith ['/'] streamLink then streamLink else '/' :: streamLink
      let hasTokenPlaceholder := containsSub hostUrlTemplate tokenPH
      let hasExpiresPlaceholder := containsSub hostUrlTemplate expiresPH
      let hasItemPlaceholder := containsSub hostUrlTemplate itemPH
      let hasTemplateSyntax := hasTokenPlaceholder || hasExpiresPlaceholder || hasItemPlaceholder
      let hostUrlTemplate2 :=
        if hasItemPlaceholder then
          let streamLinkValue := if startsWith ['/'] streamLink2 then streamLink2.drop 1 else streamLink2
          replaceAll itemPH streamLinkValue hostUrlTemplate
        else hostUrlTemplate
      if hasTemplateSyntax then
        if streamSecret = [] && (hasTokenPlaceholder || hasExpiresPlaceholder) then
          let normalizedHost := replaceAll expiresPH [] (replaceAll tokenPH [] hostUrlTemplate2)
          let cleanHost := stripTrailingSlashes normalizedHost
          if !hasItemPlaceholder then some (cleanHost ++ streamLink2) else some cleanHost
        else
          let signed :=
            if hasTokenPlaceholder || hasExpiresPlaceholder then
              let includeIp := options.includeIp
              let ip : Option Str := if includeIp then some [] else none
              let expires := expiresString now (options.expiresInMinutes.getD 60)
              match generateSecurePathHash md5 expires ip streamSecret includeIp with
              | none => none
              | some token => some (replaceAll expiresPH expires (replaceAll tokenPH token hostUrlTemplate2))
            else some hostUrlTemplate2
          match signed with
          | none => some (env.origin ++ streamLink2)  -- the catch block
          | some t =>
            let streamUrl := stripTrailingSlashes t
            if !hasItemPlaceholder then some (streamUrl ++ streamLink2) else some streamUrl
      else
        some (hostUrlTemplate ++ streamLink2)

/-! ### QualityObserver (`formatQuality`) -/

/-- `formatQuality` as defined (identically) in `useHlsPlayer.ts` and
`useDashPlayer.ts`.  `none`/`some 0` hit the `if (!height) return null`
guard. -/
def formatQuality (height : Option Nat) : Option Str :=
  match height with
  | none => none
  | some h =>
    if h = 0 then none
    else if h ≥ 2160 then some "4K".toList
    else if h ≥ 1440 then some "1440p".toList
    else if h ≥ 1080 then some "1080p".toList
    else if h ≥ 720 then some "720p".toList
    else if h ≥ 540 then some "540p".toList
    else if h ≥ 480 then some "480p".toList
    else if h ≥ 360 then some "360p".toList
    else if h ≥ 240 then some "240p".toList
    else some (natDigits h ++ ['p'])

/-- The `formatQuality` copy in `useReplacementPlayer.ts` (and the unnamed
replacement-player composable): note it has no `540` threshold. -/
def replacementFormatQuality (height : Option Nat) : Option Str :=
  match height with
  | none => none
  | some h =>
    if h = 0 then none
    else if h ≥ 2160 then some "4K".toList
    else if h ≥ 1440 then some "1440p".toList
    else if h ≥ 1080 then some "1080p".toList
    else if h ≥ 720 then some "720p".toList
    else if h ≥ 480 then some "480p".toList
    else if h ≥ 360 then some "360p".toList
    else if h ≥ 240 then some "240p".toList
    else some (natDigits h ++ ['p'])

/-! ### FormatSelector -/

/-- `isDashStream` from `useDashPlayer.ts`. -/
def isDashStream (url : Str) : Bool :=
  if url = [] then false
  else
    let lowerUrl := toLower url
    endsWith ".mpd".toList lowerUrl || containsSub lowerUrl "/dash/".toList ||
      containsSub lowerUrl "format=dash".toList

inductive EngineKind
  | HLS
  | DASH
  | NONE
deriving DecidableEq, Repr

/-- The engine choice made by `updateReplacementPlayer` (and mirrored by
`replaceDefaultVideoPlayer`): with streaming mode on (`useHls`), a DASH URL
gets the DASH engine and anything else the HLS engine; with streaming mode
off, the file plays progressively (no adaptive engine). -/
def classifyFormat (useHls : Bool) (streamUrl : Str) : EngineKind :=
  if useHls then (if isDashStream streamUrl then .DASH else .HLS) else .NONE

/-! ### PlaybackEngineSession: HLS engine configuration -/

structure HlsConfig where
  enableWorker : Bool
  lowLatencyMode : Bool
  backBufferLength : Nat
  autoStartLoad : Bool
  maxBufferLength : Nat
  maxMaxBufferLength : Nat
  maxBufferSize : Nat

/-- The `new Hls({...})` configuration object in `setupHlsPlayer`
(`useHlsPlayer.ts`). -/
def setupHlsPlayerConfig : HlsConfig :=
  { enableWorker := true
    lowLatencyMode := true
    backBufferLength := 90
    autoStartLoad := true
    maxBufferLength := 3
    maxMaxBufferLength := 6
    maxBufferSize := 60 * 1000 * 1000 }

/-- The `new Hls({...})` configuration object in `replaceDefaultVideoPlayer`
(replacement-player composable). -/
def replaceDefaultVideoPlayerHlsConfig : HlsConfig :=
  { enableWorker := true
    lowLatencyMode := true
    backBufferLength := 90
    autoStartLoad := true
    maxBufferLength := 3
    maxMaxBufferLength := 6
    maxBufferSize := 60 * 1000 * 1000 }

/-- Documented hls.js behaviour (external library): with `autoStartLoad: true`
the engine starts fetching segments by itself right after the manifest loads;
with `false` it waits for an explicit `startLoad()` call. -/
def loadingStartsAtInit (cfg : HlsConfig) : Bool := cfg.autoStartLoad

/-- The `onPlayHandler` lifecycle: the listener is attached once; when a
`play` event fires while attached it calls `hls.startLoad()` and removes
itself (`videoEl.removeEventListener('play', onPlayHandler)`). -/
structure PlayListenerState where
  attached : Bool
  startLoadCalls : Nat

def onPlayHandlerStep (s : PlayListenerState) : PlayListenerState :=
  if s.attached then { attached := false, startLoadCalls := s.startLoadCalls + 1 } else s

/-- Deliver `n` successive `play` events. -/
def runPlayEvents : Nat → PlayListenerState → PlayListenerState
  | 0, s => s
  | n + 1, s => runPlayEvents n (onPlayHandlerStep s)

/-! ### CSPViolationDetector (`handleVideoError`) -/

/-- Observable error state of one engine session bound to one video element:
whether the engine handle is stored (`hlsInstance.value` /
`dashInstance.value`), whether the element is the component's main element,
and the current CSP error message. -/
structure SessionErrorState where
  instanceActive : Bool
  isMainElement : Bool
  cspError : Option Str

/-- `setCspError`: only sets the fixed message when no error is set yet. -/
def setCspError (msg : Str) (cur : Option Str) : Option Str :=
  match cur with
  | some e => some e
  | none => some msg

def hlsCspMessage : Str :=
  "Content Security Policy (CSP) is blocking HLS streaming. Please add the following environment variable to your Directus configuration:\n\nCONTENT_SECURITY_POLICY_DIRECTIVES__MEDIA_SRC=array:'self', blob: data:".toList

def dashCspMessage : Str :=
  "Content Security Policy (CSP) is blocking DASH streaming. Please add the following environment variable to your Directus configuration:\n\nCONTENT_SECURITY_POLICY_DIRECTIVES__MEDIA_SRC=array:'self', blob: data:".toList

/-- `handleVideoError` from `setupHlsPlayer` (`useHlsPlayer.ts`), for a video
element carrying an error with code `errorCode` and message `errorMessage`
(`error.message || ''`). -/
def handleVideoError (errorCode : Nat) (errorMessage : Str) (s : SessionErrorState) :
    SessionErrorState :=
  if errorCode = 4 then
    if containsSub errorMessage "URL safety check".toList then
      if s.instanceActive && s.isMainElement then
        { s with cspError := setCspError hlsCspMessage s.cspError }
      else s
    else s
  else s

/-- `handleVideoError` from `setupDashPlayer` (`useDashPlayer.ts`); identical
guard structure, DASH remediation message. -/
def dashHandleVideoError (errorCode : Nat) (errorMessage : Str) (s : SessionErrorState) :
    SessionErrorState :=
  if errorCode = 4 then
    if containsSub errorMessage "URL safety check".toList then
      if s.instanceActive && s.isMainElement then
        { s with cspError := setCspError dashCspMessage s.cspError }
      else s
    else s
  else s

/-! ### PlayerSessionController state machine
(`useVideoPlayerSetup.ts` + `useHlsPlayer.ts`) -/

/-- Mutable state of the composable pair for the single main video element:
the stored engine handle, the registered play listener, and the multiset of
engine instances that were created and not yet destroyed (identified by
creation number). -/
structure HlsPlayerState where
  hlsInstance : Option Nat
  playEventListener : Bool
  liveEngines : List Nat
  nextId : Nat
  videoSrc : Option Str
  currentQuality : Option Str
  cspError : Option Str

/-- `cleanupHls`: removes the play listener, destroys the stored instance,
resets quality and CSP error. -/
def cleanupHls (s : HlsPlayerState) : HlsPlayerState :=
  let s1 := { s with playEventListener := false }
  let s2 :=
    match s1.hlsInstance with
    | some h => { s1 with hlsInstance := none, liveEngines := s1.liveEngines.erase h }
    | none => s1
  { s2 with currentQuality := none, cspError := none }

/-- `setupHlsPlayer` (state effects, for the main element): reset CSP error;
if hls.js is supported create a fresh engine, attach it and store it; else on
native HLS support set the element source; else run the provided fallback
(which assigns the MP4 URL when one is known). -/
def setupHlsPlayerState (hlsSupported canPlayNative : Bool) (streamUrl : Str)
    (fallbackSrc : Option Str) (s : HlsPlayerState) : HlsPlayerState :=
  let s0 := { s with cspError := none }
  if streamUrl ≠ [] ∧ hlsSupported then
    let h := s0.nextId
    { s0 with
        liveEngines := h :: s0.liveEngines
        hlsInstance := some h
        playEventListener := true
        nextId := s0.nextId + 1 }
  else if streamUrl ≠ [] ∧ canPlayNative then
    { s0 with videoSrc := some streamUrl }
  else
    match fallbackSrc with
    | some src => { s0 with videoSrc := some src }
    | none => s0

/-- Inputs of one `setupVideoPlayer` call (reactive refs and environment read
at call time; `resolvedStreamUrl` is the value `getStreamUrl(streamLinkValue)`
returns). -/
structure SetupArgs where
  videoElementPresent : Bool
  isStringField : Bool
  shouldReplaceDefaultPlayer : Bool
  useHls : Bool
  streamUrlFromValue : Option Str
  mp4Url : Option Str
  fileDataPresent : Bool
  streamLinkFieldName : Str
  streamLinkValue : Option Str
  resolvedStreamUrl : Option Str
  videoUrl : Option Str
  hlsSupported : Bool
  canPlayNative : Bool

/-- `setupVideoPlayer` from `useVideoPlayerSetup.ts`, branch by branch. -/
def setupVideoPlayer (a : SetupArgs) (s : HlsPlayerState) : HlsPlayerState :=
  if ¬ a.videoElementPresent then s
  else if a.isStringField ∧ ¬ a.shouldReplaceDefaultPlayer then
    let s1 := cleanupHls s
    if a.useHls then
      match a.streamUrlFromValue with
      | some url => setupHlsPlayerState a.hlsSupported a.canPlayNative url a.mp4Url s1
      | none => s1
    else
      match a.mp4Url with
      | some mp4 => { s1 with videoSrc := some mp4 }
      | none => s1
  else if ¬ a.fileDataPresent then s
  else
    let s1 := cleanupHls s
    let mp4Playback :=
      match a.videoUrl with
      | some url => { s1 with videoSrc := some url }
      | none => s1
    if a.streamLinkFieldName ≠ [] then
      match a.streamLinkValue, a.resolvedStreamUrl with
      | some _, some url => setupHlsPlayerState a.hlsSupported a.canPlayNative url a.videoUrl s1
      | _, _ => mp4Playback
    else mp4Playback

def initialPlayerState : HlsPlayerState :=
  { hlsInstance := none, playEventListener := false, liveEngines := [], nextId := 0,
    videoSrc := none, currentQuality := none, cspError := none }

/-- One observable operation on the controller state. -/
inductive PlayerStep : HlsPlayerState → HlsPlayerState → Prop
  | setup (a : SetupArgs) (s : HlsPlayerState) : PlayerStep s (setupVideoPlayer a s)
  | cleanup (s : HlsPlayerState) : PlayerStep s (cleanupHls s)

inductive PlayerReachable : HlsPlayerState → Prop
  | init : PlayerReachable initialPlayerState
  | step {s t : HlsPlayerState} : PlayerReachable s → PlayerStep s t → PlayerReachable t

/-! ### DefaultElementAdapter (`replaceDefaultVideoPlayer`) -/

/-- DOM / composable state relevant to adoption of the host's video element. -/
structure AdoptState where
  marked : Bool
  videoBound : Bool
  infoOverlayCount : Nat
  toggleButtonCount : Nat
  replacementHls : Bool
  replacementDash : Bool
  videoSrc : Option Str

/-- Environment read by one `replaceDefaultVideoPlayer` invocation. -/
structure AdoptParams where
  containerPresent : Bool
  videoPresent : Bool
  streamUrl : Option Str
  mp4Url : Option Str
  useHls : Bool
  hlsSupported : Bool

def liveReplacementEngines (s : AdoptState) : Nat :=
  (if s.replacementHls then 1 else 0) + (if s.replacementDash then 1 else 0)

/-- `addInfoOverlayToReplacementPlayer`: inserts the overlay only when
`querySelector('.replacement-player-info')` finds none; otherwise only the
content is updated in place. -/
def addInfoOverlayToReplacementPlayer (s : AdoptState) : AdoptState :=
  if s.infoOverlayCount = 0 then { s with infoOverlayCount := s.infoOverlayCount + 1 } else s

/-- `addToggleButtonToFilePreview`: inserts the toggle only when
`querySelector('.format-toggle-container')` finds none; otherwise only the
button text is updated. -/
def addToggleButtonToFilePreview (s : AdoptState) : AdoptState :=
  if s.toggleButtonCount = 0 then { s with toggleButtonCount := s.toggleButtonCount + 1 } else s

/-- `updateReplacementPlayer`: destroy both replacement engine instances and
clear the element source, then re-create one engine (or assign the MP4)
according to the current format. -/
def updateReplacementPlayer (p : AdoptParams) (s : AdoptState) : AdoptState :=
  if ¬ s.videoBound then s
  else
    let s1 := { s with replacementHls := false, replacementDash := false, videoSrc := none }
    if p.useHls then
      match p.streamUrl with
      | some url =>
        if isDashStream url then { s1 with replacementDash := true }
        else if p.hlsSupported then { s1 with replacementHls := true }
        else s1  -- native path via setupHlsPlayer: no replacement engine stored
      | none => s1
    else
      match p.mp4Url with
      | some mp4 => { s1 with videoSrc := some mp4 }
      | none => s1

/-- `replaceDefaultVideoPlayer`: adopt the host-rendered video element.  An
already-marked element (`dataset.replacedByHls === 'true'`) is updated in
place; otherwise the element is marked, an engine is created for the stream,
and overlay/toggle are inserted behind their existence checks. -/
def replaceDefaultVideoPlayer (p : AdoptParams) (s : AdoptState) : AdoptState :=
  if ¬ p.containerPresent then s  -- retried later; no effect now
  else if ¬ p.videoPresent then s
  else if s.marked then updateReplacementPlayer p s
  else
    match p.streamUrl with
    | none =>
      match p.mp4Url with
      | some mp4 =>
        if ¬ p.useHls then { s with marked := true, videoBound := true, videoSrc := some mp4 }
        else s
      | none => s
    | some url =>
      let s1 := { s with marked := true, videoBound := true, videoSrc := none }
      let s2 :=
        if isDashStream url then { s1 with replacementDash := true }
        else if p.hlsSupported then { s1 with replacementHls := true }
        else s1  -- native fallback via setupHlsPlayer: no replacement engine stored
      addToggleButtonToFilePreview (addInfoOverlayToReplacementPlayer s2)

/-! ### Template well-formedness (for the no-secret cleanliness argument) -/

/-- No `'{'` occurs in the string; every placeholder pattern starts with
`'{'`, so such a string cannot contain one. -/
def braceFree (s : Str) : Prop := ∀ c ∈ s, c ≠ '{'

/-- `Seg A s`: the string is a concatenation of brace-free characters and
whole placeholder literals drawn from `A`. -/
inductive Seg (A : List Str) : Str → Prop
  | nil : Seg A []
  | chr {c : Char} {rest : Str} : c ≠ '{' → Seg A rest → Seg A (c :: rest)
  | ph {p : Str} {rest : Str} : p ∈ A → Seg A rest → Seg A (p ++ rest)

/-- The engine-handle invariant for the main element: the stored handle is
exactly the (at most one) live engine instance. -/
def engineInv (s : HlsPlayerState) : Prop :=
  (s.hlsInstance = none ∧ s.liveEngines = []) ∨
  (∃ h, s.hlsInstance = some h ∧ s.liveEngines = [h])

theorem replaceAllGo_eq_of_le (pat rep : Str) (fuel : Nat) :
    ∀ (s : Str), s.length ≤ fuel →
      replaceAllGo pat rep fuel s = replaceAllGo pat rep s.length s := by
  induction fuel using Nat.strong_induction_on with
  | _ fuel ih =>
    intro s hs
    match fuel, s with
    | _, [] => simp [replaceAllGo]
    | 0, c :: rest => simp at hs
    | f + 1, c :: rest =>
      have hrest : rest.length ≤ f := by simp at hs; omega
      simp only [replaceAllGo, List.length_cons]
      by_cases hp : pat.isPrefixOf (c :: rest) = true
      · simp only [hp, if_true]
        have hdl : (List.drop (pat.length - 1) rest).length ≤ rest.length := by
          rw [List.length_drop]; omega
        rw [ih f (by omega) _ (by omega),
          ih rest.length (by omega) _ hdl]
      · simp only [hp, Bool.false_eq_true, if_false]
        rw [ih f (by omega) _ hrest, ih rest.length (by omega) rest (Nat.le_refl _)]

theorem replaceAll_nil (pat rep : Str) : replaceAll pat rep [] = [] := rfl

/-- Unfolding `replaceAll` at a non-matching head character. -/
theorem replaceAll_cons_no (pat rep : Str) (c : Char) (rest : Str)
    (h : ¬ pat.isPrefixOf (c :: rest) = true) :
    replaceAll pat rep (c :: rest) = c :: replaceAll pat rep rest := by
  simp only [replaceAll, List.length_cons, replaceAllGo, h, Bool.false_eq_true, if_false]

/-- Unfolding `replaceAll` at a match. -/
theorem replaceAll_append_match (pat rep rest : Str) (hne : pat ≠ []) :
    replaceAll pat rep (pat ++ rest) = rep ++ replaceAll pat rep rest := by
  obtain ⟨p, ps, rfl⟩ := List.exists_cons_of_ne_nil hne
  have hp : (p :: ps).isPrefixOf ((p :: ps) ++ rest) = true := by
    rw [List.isPrefixOf_iff_prefix]; exact List.prefix_append _ _
  have hgoal : (p :: ps) ++ rest = p :: (ps ++ rest) := rfl
  rw [hgoal] at hp
  show replaceAllGo (p :: ps) rep (p :: (ps ++ rest)).length (p :: (ps ++ rest)) = _
  simp only [replaceAllGo, List.length_cons, hp, if_true]
  have hdrop : List.drop (ps.length + 1 - 1) (ps ++ rest) = rest := by
    simp only [Nat.add_sub_cancel]
    exact List.drop_left ps rest
  rw [hdrop]
  congr 1
  exact replaceAllGo_eq_of_le _ _ _ _ (by simp)

/-- A replacement pass whose pattern starts with `'{'` walks unchanged over a
brace-free prefix. -/
theorem replaceAll_append_left (pat rep A rest : Str) (ps : Str) (hpat : pat = '{' :: ps)
    (hA : ∀ c ∈ A, c ≠ '{') :
    replaceAll pat rep (A ++ rest) = A ++ replaceAll pat rep rest := by
  induction A with
  | nil => simp
  | cons c A' ih =>
    have hc : c ≠ '{' := hA c (List.mem_cons_self c A')
    have hnp : ¬ pat.isPrefixOf (c :: (A' ++ rest)) = true := by
      subst hpat
      simp only [List.isPrefixOf, Bool.and_eq_true, beq_iff_eq]
      intro hcontra
      exact hc hcontra.1.symm
    rw [List.cons_append, replaceAll_cons_no _ _ _ _ hnp,
      ih (fun d hd => hA d (List.mem_cons_of_mem c hd))]
    rfl

/-- Deleting every occurrence of a single character is `filter`. -/
theorem replaceAll_single_eq_filter (c0 : Char) (s : Str) :
    replaceAll [c0] [] s = s.filter (fun c => !(c == c0)) := by
  induction s with
  | nil => rfl
  | cons c rest ih =>
    by_cases hc : c = c0
    · subst hc
      rw [show (c :: rest) = [c] ++ rest from rfl,
        replaceAll_append_match _ _ _ (by simp)]
      simp [ih]
    · have hnp : ¬ ([c0].isPrefixOf (c :: rest)) = true := by
        simp only [List.isPrefixOf, Bool.and_eq_true, beq_iff_eq]
        intro hcontra
        exact hc hcontra.1.symm
      rw [replaceAll_cons_no _ _ _ _ hnp]
      have : (c == c0) = false := beq_eq_false_iff_ne.mpr hc
      simp [this, ih]

/-- Replacing every occurrence of a single character by another is `map`. -/
theorem replaceAll_single_eq_map (c0 d0 : Char) (s : Str) :
    replaceAll [c0] [d0] s = s.map (fun c => if c == c0 then d0 else c) := by
  induction s with
  | nil => rfl
  | cons c rest ih =>
    by_cases hc : c = c0
    · subst hc
      rw [show (c :: rest) = [c] ++ rest from rfl,
        replaceAll_append_match _ _ _ (by simp)]
      simp [ih]
    · have hnp : ¬ ([c0].isPrefixOf (c :: rest)) = true := by
        simp only [List.isPrefixOf, Bool.and_eq_true, beq_iff_eq]
        intro hcontra
        exact hc hcontra.1.symm
      rw [replaceAll_cons_no _ _ _ _ hnp]
      have hbf : (c == c0) = false := beq_eq_false_iff_ne.mpr hc
      simp [hbf, ih, hc]

/-! ### Base64 character and length facts -/

theorem b64Char_mem_table (n : Nat) : b64Char n ∈ b64Table := by
  unfold b64Char
  rw [List.getD_eq_getElem?_getD]
  rcases h : b64Table[n]? with _ | c
  · simp only [Option.getD_none]
    decide
  · simp only [Option.getD_some]
    exact List.getElem?_mem h

theorem b64Char_ne (n : Nat) (c0 : Char) (hc0 : c0 ∉ b64Table) : b64Char n ≠ c0 :=
  fun h => hc0 (h ▸ b64Char_mem_table n)

theorem mem_base64Chunks (bs : List Nat) :
    ∀ c ∈ base64Chunks bs, (∃ n, c = b64Char n) ∨ c = '=' := by
  induction bs using base64Chunks.induct with
  | case1 => intro c hc; simp [base64Chunks] at hc
  | case2 b1 =>
    intro c hc
    simp only [base64Chunks, List.mem_cons, List.not_mem_nil, or_false] at hc
    rcases hc with rfl | rfl | rfl | rfl
    · exact Or.inl ⟨_, rfl⟩
    · exact Or.inl ⟨_, rfl⟩
    · exact Or.inr rfl
    · exact Or.inr rfl
  | case3 b1 b2 =>
    intro c hc
    simp only [base64Chunks, List.mem_cons, List.not_mem_nil, or_false] at hc
    rcases hc with rfl | rfl | rfl | rfl
    · exact Or.inl ⟨_, rfl⟩
    · exact Or.inl ⟨_, rfl⟩
    · exact Or.inl ⟨_, rfl⟩
    · exact Or.inr rfl
  | case4 b1 b2 b3 rest ih =>
    intro c hc
    simp only [base64Chunks, List.mem_cons] at hc
    rcases hc with rfl | rfl | rfl | rfl | hmem
    · exact Or.inl ⟨_, rfl⟩
    · exact Or.inl ⟨_, rfl⟩
    · exact Or.inl ⟨_, rfl⟩
    · exact Or.inl ⟨_, rfl⟩
    · exact ih c hmem

theorem length_filter_base64Chunks (bs : List Nat) :
    ((base64Chunks bs).filter (fun c => !(c == '='))).length =
      4 * (bs.length / 3) + (if bs.length % 3 = 0 then 0 else bs.length % 3 + 1) := by
  have hkeep : ∀ n : Nat, (b64Char n == '=') = false :=
    fun n => beq_eq_false_iff_ne.mpr (b64Char_ne n '=' (by decide))
  induction bs using base64Chunks.induct with
  | case1 => simp [base64Chunks]
  | case2 b1 => simp [base64Chunks, List.filter_cons, hkeep]
  | case3 b1 b2 => simp [base64Chunks, List.filter_cons, hkeep]
  | case4 b1 b2 b3 rest ih =>
    simp only [base64Chunks, List.filter_cons, hkeep, Bool.not_false, if_true,
      List.length_cons, ih]
    split_ifs <;> omega

theorem length_urlSafeBase64 (s : Str) :
    (urlSafeBase64 s).length = (s.filter (fun c => !(c == '='))).length := by
  unfold urlSafeBase64
  rw [replaceAll_single_eq_map, replaceAll_single_eq_map, replaceAll_single_eq_filter]
  simp

/-- A 16-byte digest (MD5) gives a 22-character URL-safe token: base64 is 24
characters ending in `==`, and padding is stripped. -/
theorem token_length_22 (bs : List Nat) (h : bs.length = 16) :
    (urlSafeBase64 (base64Chunks bs)).length = 22 := by
  rw [length_urlSafeBase64, length_filter_base64Chunks, h]
  decide

theorem urlSafeBase64_base64_braceFree (bs : List Nat) :
    ∀ c ∈ urlSafeBase64 (base64Chunks bs), c ≠ '{' := by
  intro c hc
  unfold urlSafeBase64 at hc
  rw [replaceAll_single_eq_map, replaceAll_single_eq_map, replaceAll_single_eq_filter] at hc
  simp only [List.mem_map, List.mem_filter] at hc
  obtain ⟨x, ⟨y, ⟨hy, _⟩, hxy⟩, hcx⟩ := hc
  subst hcx
  subst hxy
  rcases mem_base64Chunks _ y hy with ⟨n, rfl⟩ | rfl
  · have h1 : b64Char n ≠ '{' := b64Char_ne n '{' (by decide)
    split_ifs <;> first | decide | exact h1
  · decide

/-! ### Occurrence and segmentation lemmas (placeholder cleanliness) -/

theorem containsSub_self_append (p rest : Str) : containsSub (p ++ rest) p = true := by
  cases p with
  | nil =>
    cases rest with
    | nil => rfl
    | cons c r => simp [containsSub, List.isPrefixOf]
  | cons c ps =>
    have hp : (c :: ps).isPrefixOf ((c :: ps) ++ rest) = true := by
      rw [List.isPrefixOf_iff_prefix]; exact List.prefix_append _ _
    simp [containsSub, hp]

theorem containsSub_mono_left (a b p : Str) (h : containsSub a p = true) :
    containsSub (a ++ b) p = true := by
  induction a with
  | nil =>
    cases p with
    | nil => exact containsSub_self_append [] b
    | cons c ps => simp [containsSub] at h
  | cons c a' ih =>
    simp only [containsSub, Bool.or_eq_true] at h ⊢
    rcases h with h | h
    · left
      rw [List.isPrefixOf_iff_prefix] at h ⊢
      exact h.trans ⟨b, rfl⟩
    · exact Or.inr (ih h)

theorem containsSub_mono_right (a b p : Str) (h : containsSub b p = true) :
    containsSub (a ++ b) p = true := by
  induction a with
  | nil => exact h
  | cons c a' ih =>
    simp only [List.cons_append, containsSub, Bool.or_eq_true]
    exact Or.inr ih

/-- When the pattern matches nowhere inside the segment `q` (at any window,
whatever follows), scanning `q ++ rest` is scanning `rest`. -/
theorem containsSub_append_no_match (q p : Str)
    (hw : ∀ (rest2 : Str) (i : Nat), i < q.length → ¬ p.isPrefixOf (List.drop i q ++ rest2) = true) :
    ∀ rest, containsSub (q ++ rest) p = containsSub rest p := by
  induction q with
  | nil => intro rest; rfl
  | cons c q' ih =>
    intro rest
    have h0 : p.isPrefixOf (c :: (q' ++ rest)) = false := by
      have := hw rest 0 (by simp)
      simp only [List.drop_zero] at this
      exact Bool.eq_false_iff.mpr (by simpa using this)
    simp only [List.cons_append, containsSub, h0, Bool.false_or]
    exact ih (fun rest2 i hi => by
      have := hw rest2 (i + 1) (by simpa using Nat.succ_lt_succ hi)
      simpa using this) rest

/-- The windowed-mismatch condition lets a replacement pass walk over a whole
segment unchanged. -/
theorem replaceAll_append_seg (q p r : Str)
    (hw : ∀ (rest2 : Str) (i : Nat), i < q.length → ¬ p.isPrefixOf (List.drop i q ++ rest2) = true) :
    ∀ rest, replaceAll p r (q ++ rest) = q ++ replaceAll p r rest := by
  induction q with
  | nil => intro rest; rfl
  | cons c q' ih =>
    intro rest
    have h0 : ¬ p.isPrefixOf (c :: (q' ++ rest)) = true := by
      have := hw rest 0 (by simp)
      simpa using this
    rw [List.cons_append, replaceAll_cons_no _ _ _ _ h0,
      ih (fun rest2 i hi => by
        have := hw rest2 (i + 1) (by simpa using Nat.succ_lt_succ hi)
        simpa using this) rest]
    rfl

/-! ### Segmentation lemmas -/

theorem braceFree_append {a b : Str} (ha : braceFree a) (hb : braceFree b) :
    braceFree (a ++ b) := by
  intro c hc
  rcases List.mem_append.mp hc with h | h
  · exact ha c h
  · exact hb c h

theorem braceFree_Seg (A : List Str) {s : Str} (hs : braceFree s) : Seg A s := by
  induction s with
  | nil => exact Seg.nil
  | cons c rest ih =>
    exact Seg.chr (hs c (List.mem_cons_self c rest))
      (ih fun d hd => hs d (List.mem_cons_of_mem c hd))

theorem Seg_braceFree {s : Str} (hs : Seg [] s) : braceFree s := by
  induction hs with
  | nil => intro c hc; simp at hc
  | chr hne _ ih =>
    intro d hd
    rcases List.mem_cons.mp hd with rfl | hd
    · assumption
    · exact ih d hd
  | ph hmem _ _ => simp at hmem

theorem Seg_append {A : List Str} {a b : Str} (ha : Seg A a) (hb : Seg A b) :
    Seg A (a ++ b) := by
  induction ha with
  | nil => exact hb
  | chr hne _ ih => exact Seg.chr hne ih
  | ph hmem _ ih =>
    rw [List.append_assoc]
    exact Seg.ph hmem ih

/-- Dropping a placeholder from the allowed list when it never occurs. -/
theorem Seg_erase {A B : List Str} {s : Str} (hs : Seg A s) (p : Str)
    (hB : ∀ q ∈ A, q ≠ p → q ∈ B) :
    containsSub s p = false → Seg B s := by
  induction hs with
  | nil => intro _; exact Seg.nil
  | chr hne _ ih =>
    intro hocc
    simp only [containsSub, Bool.or_eq_false_iff] at hocc
    exact Seg.chr hne (ih hocc.2)
  | ph hmem _ ih =>
    rename_i q rest hseg
    intro hocc
    by_cases hqp : q = p
    · subst hqp
      rw [containsSub_self_append] at hocc
      cases hocc
    · have hrest : containsSub rest p = false := by
        by_contra hc
        rw [Bool.not_eq_false] at hc
        rw [containsSub_mono_right q rest p hc] at hocc
        cases hocc
      exact Seg.ph (hB q hmem hqp) (ih hrest)

/-- Substituting one placeholder: the result is segmented over any list
containing the remaining placeholders. -/
theorem Seg_replaceAll {A B : List Str} {s : Str} (hs : Seg A s) (p r : Str)
    (hpne : p ≠ []) (hr : braceFree r)
    (hphead : ∃ ps, p = '{' :: ps)
    (hstep : ∀ q ∈ A, q ≠ p → ∀ rest, replaceAll p r (q ++ rest) = q ++ replaceAll p r rest)
    (hB : ∀ q ∈ A, q ≠ p → q ∈ B) :
    Seg B (replaceAll p r s) := by
  induction hs with
  | nil => exact Seg.nil
  | chr hne _ ih =>
    rename_i c rest hseg
    obtain ⟨ps, hps⟩ := hphead
    have h0 : ¬ p.isPrefixOf (c :: rest) = true := by
      subst hps
      simp only [List.isPrefixOf, Bool.and_eq_true, beq_iff_eq]
      intro hcontra
      exact hne hcontra.1.symm
    rw [replaceAll_cons_no _ _ _ _ h0]
    exact Seg.chr hne ih
  | ph hmem _ ih =>
    rename_i q rest hseg
    by_cases hqp : q = p
    · subst hqp
      rw [replaceAll_append_match _ _ _ hpne]
      exact Seg_append (braceFree_Seg B hr) ih
    · rw [hstep q hmem hqp rest]
      exact Seg.ph (hB q hmem hqp) ih

/-- A segmented string contains no pattern that mismatches every window of
every allowed placeholder and starts with a brace. -/
theorem Seg_not_contains {A : List Str} {s : Str} (hs : Seg A s) (p : Str)
    (hphead : ∃ ps, p = '{' :: ps)
    (hw : ∀ q ∈ A, ∀ (rest2 : Str) (i : Nat), i < q.length →
      ¬ p.isPrefixOf (List.drop i q ++ rest2) = true) :
    containsSub s p = false := by
  induction hs with
  | nil =>
    obtain ⟨ps, hps⟩ := hphead
    subst hps
    rfl
  | chr hne _ ih =>
    rename_i c rest hseg
    obtain ⟨ps, hps⟩ := hphead
    have h0 : p.isPrefixOf (c :: rest) = false := by
      subst hps
      simp only [List.isPrefixOf]
      have : ('{' == c) = false := beq_eq_false_iff_ne.mpr (fun h => hne h.symm)
      simp [this]
    simp only [containsSub, h0, Bool.false_or]
    exact ih
  | ph hmem _ ih =>
    rename_i q rest hseg
    rw [containsSub_append_no_match q p (hw q hmem) rest]
    exact ih

/-- `containsSub s p = false` survives taking the brace-free-prefix of `s`:
contrapositive of left monotonicity. -/
theorem containsSub_false_of_append {a b p : Str} (h : containsSub (a ++ b) p = false) :
    containsSub a p = false := by
  by_contra hc
  rw [Bool.not_eq_false] at hc
  rw [containsSub_mono_left a b p hc] at h
  cases h

theorem stripTrailingSlashes_append (a b : Str) :
    stripTrailingSlashes (a ++ b) =
      if stripTrailingSlashes b = [] then stripTrailingSlashes a
      else a ++ stripTrailingSlashes b := by
  unfold stripTrailingSlashes
  rw [List.reverse_append, List.dropWhile_append]
  by_cases h : (b.reverse.dropWhile (· = '/')).isEmpty = true
  · rw [if_pos h, if_pos]
    rw [List.isEmpty_iff] at h
    rw [h]
    rfl
  · rw [if_neg h, if_neg]
    · rw [List.reverse_append, List.reverse_reverse]
    · rw [List.isEmpty_iff] at h
      intro hc
      exact h (by simpa using congrArg List.reverse hc)

/-- Stripping trailing slashes preserves segmentation as long as no allowed
placeholder itself strips (ours end in `}`). -/
theorem Seg_stripTrailingSlashes {A : List Str} {s : Str} (hs : Seg A s)
    (hA : ∀ q ∈ A, stripTrailingSlashes q = q) :
    Seg A (stripTrailingSlashes s) := by
  induction hs with
  | nil => exact Seg.nil
  | chr hne _ ih =>
    rename_i c rest hseg
    rw [show (c :: rest) = [c] ++ rest from rfl, stripTrailingSlashes_append]
    by_cases h : stripTrailingSlashes rest = []
    · rw [if_pos h]
      by_cases hsl : c = '/'
      · subst hsl
        have : stripTrailingSlashes ['/'] = [] := by decide
        rw [this]
        exact Seg.nil
      · have : stripTrailingSlashes [c] = [c] := by
          unfold stripTrailingSlashes
          simp [List.dropWhile, hsl]
        rw [this]
        exact Seg.chr hne Seg.nil
    · rw [if_neg h]
      exact Seg.chr hne ih
  | ph hmem _ ih =>
    rename_i q rest hseg
    rw [stripTrailingSlashes_append]
    by_cases h : stripTrailingSlashes rest = []
    · rw [if_pos h, hA q hmem]
      exact List.append_nil q ▸ Seg.ph hmem Seg.nil
    · rw [if_neg h]
      exact Seg.ph hmem ih

/-! ### Placeholder window facts: one placeholder never matches inside
another -/

theorem phw_tok_host : ∀ (rest2 : Str) (i : Nat), i < tokenPH.length →
    ¬ hostUrlPH.isPrefixOf (List.drop i tokenPH ++ rest2) = true := by
  intro rest2 i hi
  have hl : tokenPH.length = 9 := by decide
  rw [hl] at hi
  interval_cases i <;> simp [List.isPrefixOf, hostUrlPH, tokenPH]

theorem phw_exp_host : ∀ (rest2 : Str) (i : Nat), i < expiresPH.length →
    ¬ hostUrlPH.isPrefixOf (List.drop i expiresPH ++ rest2) = true := by
  intro rest2 i hi
  have hl : expiresPH.length = 11 := by decide
  rw [hl] at hi
  interval_cases i <;> simp [List.isPrefixOf, hostUrlPH, expiresPH]

theorem phw_item_host : ∀ (rest2 : Str) (i : Nat), i < itemPH.length →
    ¬ hostUrlPH.isPrefixOf (List.drop i itemPH ++ rest2) = true := by
  intro rest2 i hi
  have hl : itemPH.length = 14 := by decide
  rw [hl] at hi
  interval_cases i <;> simp [List.isPrefixOf, hostUrlPH, itemPH]

theorem phw_tok_item : ∀ (rest2 : Str) (i : Nat), i < tokenPH.length →
    ¬ itemPH.isPrefixOf (List.drop i tokenPH ++ rest2) = true := by
  intro rest2 i hi
  have hl : tokenPH.length = 9 := by decide
  rw [hl] at hi
  interval_cases i <;> simp [List.isPrefixOf, itemPH, tokenPH]

theorem phw_exp_item : ∀ (rest2 : Str) (i : Nat), i < expiresPH.length →
    ¬ itemPH.isPrefixOf (List.drop i expiresPH ++ rest2) = true := by
  intro rest2 i hi
  have hl : expiresPH.length = 11 := by decide
  rw [hl] at hi
  interval_cases i <;> simp [List.isPrefixOf, itemPH, expiresPH]

theorem phw_exp_tok : ∀ (rest2 : Str) (i : Nat), i < expiresPH.length →
    ¬ tokenPH.isPrefixOf (List.drop i expiresPH ++ rest2) = true := by
  intro rest2 i hi
  have hl : expiresPH.length = 11 := by decide
  rw [hl] at hi
  interval_cases i <;> simp [List.isPrefixOf, tokenPH, expiresPH]

theorem phw_item_tok : ∀ (rest2 : Str) (i : Nat), i < itemPH.length →
    ¬ tokenPH.isPrefixOf (List.drop i itemPH ++ rest2) = true := by
  intro rest2 i hi
  have hl : itemPH.length = 14 := by decide
  rw [hl] at hi
  interval_cases i <;> simp [List.isPrefixOf, tokenPH, itemPH]

theorem phw_item_exp : ∀ (rest2 : Str) (i : Nat), i < itemPH.length →
    ¬ expiresPH.isPrefixOf (List.drop i itemPH ++ rest2) = true := by
  intro rest2 i hi
  have hl : itemPH.length = 14 := by decide
  rw [hl] at hi
  interval_cases i <;> simp [List.isPrefixOf, expiresPH, itemPH]

/-! ### C1: the signed-URL scenario -/

theorem replaceAll_of_not_contains (pat rep s : Str) (h : containsSub s pat = false) :
    replaceAll pat rep s = s := by
  induction s with
  | nil => rfl
  | cons c rest ih =>
    simp only [containsSub, Bool.or_eq_false_iff] at h
    rw [replaceAll_cons_no _ _ _ _ (by simp [h.1]), ih h.2]

theorem c1_eval (md5 : Str → List Nat) (secret : Str) (hsec : secret ≠ []) :
    getStreamUrl md5 1700000000000
      { origin := "https://origin".toList, apiBaseUrl := [] }
      { hostUrl := "https://example.com/stream/".toList
        urlSchema := "\x7b\x7bhost_url\x7d\x7d\x7b\x7btoken\x7d\x7d/\x7b\x7bexpires\x7d\x7d/\x7b\x7bitem_field\x7d\x7d".toList
        streamSecret := secret
        includeIp := false
        expiresInMinutes := some 60 }
      "my_playlist.m3u8".toList =
    some ("https://example.com/stream".toList ++
      (urlSafeBase64 (base64Chunks (md5 ("1700003600".toList ++ " ".toList ++ secret))) ++
        "/1700003600/my_playlist.m3u8".toList)) := by
  have hA : ∀ c ∈ "https://example.com/stream".toList, c ≠ '{' := by decide
  have hpatTok : tokenPH = '{' :: "\x7btoken\x7d\x7d".toList := by decide
  have hpatExp : expiresPH = '{' :: "\x7bexpires\x7d\x7d".toList := by decide
  have hhash : generateSecurePathHash md5 "1700003600".toList none secret false =
      some (urlSafeBase64 (base64Chunks (md5 ("1700003600".toList ++ " ".toList ++ secret)))) := by
    unfold generateSecurePathHash
    rw [if_neg (by decide), if_neg hsec]
    rfl
  have hrepTok : ∀ tok : Str,
      replaceAll tokenPH tok
        "https://example.com/stream\x7b\x7btoken\x7d\x7d/\x7b\x7bexpires\x7d\x7d/my_playlist.m3u8".toList =
      "https://example.com/stream".toList ++
        (tok ++ "/\x7b\x7bexpires\x7d\x7d/my_playlist.m3u8".toList) := by
    intro tok
    rw [show ("https://example.com/stream\x7b\x7btoken\x7d\x7d/\x7b\x7bexpires\x7d\x7d/my_playlist.m3u8".toList : Str) =
      "https://example.com/stream".toList ++
        (tokenPH ++ "/\x7b\x7bexpires\x7d\x7d/my_playlist.m3u8".toList) from by decide]
    rw [replaceAll_append_left _ _ _ _ _ hpatTok hA,
      replaceAll_append_match _ _ _ (by decide),
      replaceAll_of_not_contains _ _ _ (by decide)]
  have hrepExpC :
      replaceAll expiresPH "1700003600".toList
        ("https://example.com/stream".toList ++
          (urlSafeBase64 (base64Chunks (md5 ("1700003600".toList ++ " ".toList ++ secret))) ++
            "/\x7b\x7bexpires\x7d\x7d/my_playlist.m3u8".toList)) =
      "https://example.com/stream".toList ++
        (urlSafeBase64 (base64Chunks (md5 ("1700003600".toList ++ " ".toList ++ secret))) ++
          "/1700003600/my_playlist.m3u8".toList) := by
    rw [replaceAll_append_left _ _ _ _ _ hpatExp hA,
      replaceAll_append_left _ _ _ _ _ hpatExp (urlSafeBase64_base64_braceFree _),
      show replaceAll expiresPH "1700003600".toList
        "/\x7b\x7bexpires\x7d\x7d/my_playlist.m3u8".toList =
        "/1700003600/my_playlist.m3u8".toList from by decide]
  have hd : (decodePercent "\x7b\x7bhost_url\x7d\x7d\x7b\x7btoken\x7d\x7d/\x7b\x7bexpires\x7d\x7d/\x7b\x7bitem_field\x7d\x7d".toList).getD
      "\x7b\x7bhost_url\x7d\x7d\x7b\x7btoken\x7d\x7d/\x7b\x7bexpires\x7d\x7d/\x7b\x7bitem_field\x7d\x7d".toList =
      "\x7b\x7bhost_url\x7d\x7d\x7b\x7btoken\x7d\x7d/\x7b\x7bexpires\x7d\x7d/\x7b\x7bitem_field\x7d\x7d".toList := by decide
  have hh : stripTrailingSlashes (resolveHostUrl
      { origin := "https://origin".toList, apiBaseUrl := [] }
      "https://example.com/stream/".toList) = "https://example.com/stream".toList := by decide
  have hsub : replaceAll hostUrlPH "https://example.com/stream".toList
      "\x7b\x7bhost_url\x7d\x7d\x7b\x7btoken\x7d\x7d/\x7b\x7bexpires\x7d\x7d/\x7b\x7bitem_field\x7d\x7d".toList =
      "https://example.com/stream\x7b\x7btoken\x7d\x7d/\x7b\x7bexpires\x7d\x7d/\x7b\x7bitem_field\x7d\x7d".toList := by decide
  have htokc : containsSub
      "https://example.com/stream\x7b\x7btoken\x7d\x7d/\x7b\x7bexpires\x7d\x7d/\x7b\x7bitem_field\x7d\x7d".toList
      tokenPH = true := by decide
  have hitemc : containsSub
      "https://example.com/stream\x7b\x7btoken\x7d\x7d/\x7b\x7bexpires\x7d\x7d/\x7b\x7bitem_field\x7d\x7d".toList
      itemPH = true := by decide
  have hnorm : (if startsWith ['/'] "my_playlist.m3u8".toList = true then
      List.drop 1 "my_playlist.m3u8".toList else "my_playlist.m3u8".toList) =
      "my_playlist.m3u8".toList := by decide
  have hitem2 : replaceAll itemPH "my_playlist.m3u8".toList
      "https://example.com/stream\x7b\x7btoken\x7d\x7d/\x7b\x7bexpires\x7d\x7d/\x7b\x7bitem_field\x7d\x7d".toList =
      "https://example.com/stream\x7b\x7btoken\x7d\x7d/\x7b\x7bexpires\x7d\x7d/my_playlist.m3u8".toList := by decide
  have hexpeval : expiresString 1700000000000 ((some 60).getD 60) = "1700003600".toList := by decide
  have hn1 : ¬("my_playlist.m3u8".toList = ([] : Str)) := by decide
  have hn2 : (startsWith "http://".toList "my_playlist.m3u8".toList ||
      startsWith "https://".toList "my_playlist.m3u8".toList) = false := by decide
  have hn3 : ("\x7b\x7bhost_url\x7d\x7d\x7b\x7btoken\x7d\x7d/\x7b\x7bexpires\x7d\x7d/\x7b\x7bitem_field\x7d\x7d".toList : Str) ≠ [] := by decide
  simp only [getStreamUrl, hsec, hd, hh, hsub, htokc, hitemc, hnorm, hitem2, hexpeval,
    hn1, hn2, hn3, hhash, hrepTok, hrepExpC, Bool.true_or, Bool.or_true, Bool.not_true,
    Bool.false_eq_true, eq_self_iff_true, if_true, if_false, not_false_eq_true, ite_true, ite_false]
  rw [if_pos hn3]

/-- C1.  In the claimed scenario (host URL `https://example.com/stream/`,
template `{{host_url}}{{token}}/{{expires}}/{{item_field}}`, configured
secret, ttl 60, reference `my_playlist.m3u8`, clock 1700000000000 ms) the
token is the URL-safe base64 of the digest of `expires + " " + secret`
(22 characters for a 16-byte digest) and the expires value is the 10-digit
`1700003600` — but the URL does *not* match the claimed pattern: the code
strips the trailing slash from the host URL before substituting
`{{host_url}}`, so the result is `https://example.com/stream<token>/…`
(length 76) while every string of the claimed pattern
`https://example.com/stream/<22-char-token>/<10-digit-epoch>/my_playlist.m3u8`
has length 77. -/
theorem c1_signed_url_lacks_separator (md5 : Str → List Nat) (secret : Str)
    (hsec : secret ≠ []) (hlen : ∀ s, (md5 s).length = 16) :
    ∃ url : Str,
      getStreamUrl md5 1700000000000
        { origin := "https://origin".toList, apiBaseUrl := [] }
        { hostUrl := "https://example.com/stream/".toList
          urlSchema := "\x7b\x7bhost_url\x7d\x7d\x7b\x7btoken\x7d\x7d/\x7b\x7bexpires\x7d\x7d/\x7b\x7bitem_field\x7d\x7d".toList
          streamSecret := secret
          includeIp := false
          expiresInMinutes := some 60 }
        "my_playlist.m3u8".toList = some url ∧
      url = "https://example.com/stream".toList ++
        (urlSafeBase64 (base64Chunks (md5 ("1700003600".toList ++ " ".toList ++ secret))) ++
          "/1700003600/my_playlist.m3u8".toList) ∧
      url.length = 76 ∧
      ∀ token expires : Str, token.length = 22 → expires.length = 10 →
        url ≠ "https://example.com/stream/".toList ++ token ++ "/".toList ++ expires ++
          "/my_playlist.m3u8".toList := by
  have ht : (urlSafeBase64 (base64Chunks
      (md5 ("1700003600".toList ++ " ".toList ++ secret)))).length = 22 :=
    token_length_22 _ (hlen _)
  have l1 : ("https://example.com/stream".toList : Str).length = 26 := by decide
  have l2 : ("/1700003600/my_playlist.m3u8".toList : Str).length = 28 := by decide
  have l3 : ("https://example.com/stream/".toList : Str).length = 27 := by decide
  have l4 : ("/my_playlist.m3u8".toList : Str).length = 17 := by decide
  have l5 : (("/".toList) : Str).length = 1 := by decide
  refine ⟨_, c1_eval md5 secret hsec, rfl, ?_, ?_⟩
  · simp only [List.length_append, l1, l2, ht]
  · intro token expires h22 h10 heq
    have hl := congrArg List.length heq
    simp only [List.length_append, l1, l2, l3, l4, l5, ht, h22, h10] at hl
    omega

/-- C1 witness: the scenario evaluated with a concrete 16-byte digest
function and the secret `mysecret`. -/
theorem c1_signed_url_lacks_separator_witness :
    ∃ url : Str,
      getStreamUrl (fun _ => List.replicate 16 0) 1700000000000
        { origin := "https://origin".toList, apiBaseUrl := [] }
        { hostUrl := "https://example.com/stream/".toList
          urlSchema := "\x7b\x7bhost_url\x7d\x7d\x7b\x7btoken\x7d\x7d/\x7b\x7bexpires\x7d\x7d/\x7b\x7bitem_field\x7d\x7d".toList
          streamSecret := "mysecret".toList
          includeIp := false
          expiresInMinutes := some 60 }
        "my_playlist.m3u8".toList = some url ∧
      url = "https://example.com/stream".toList ++
        (urlSafeBase64 (base64Chunks ((fun _ => List.replicate 16 0)
            ("1700003600".toList ++ " ".toList ++ "mysecret".toList))) ++
          "/1700003600/my_playlist.m3u8".toList) ∧
      url.length = 76 ∧
      ∀ token expires : Str, token.length = 22 → expires.length = 10 →
        url ≠ "https://example.com/stream/".toList ++ token ++ "/".toList ++ expires ++
          "/my_playlist.m3u8".toList :=
  c1_signed_url_lacks_separator (fun _ => List.replicate 16 0) "mysecret".toList
    (by decide) (fun s => by simp)

/-! ### C6: quality labels -/

/-- C6.  The claim says every quality-label mapping in the system uses the
full threshold table (including `≥540→"540p"`).  The main `formatQuality`
(HLS/DASH composables) does, but the replacement player's copy omits the 540
threshold, sending height 540 to `"480p"`.  The agreed examples hold in both
copies. -/
theorem c6_quality_label_divergence_at_540 :
    formatQuality (some 540) = some "540p".toList ∧
    replacementFormatQuality (some 540) = some "480p".toList ∧
    formatQuality (some 1080) = some "1080p".toList ∧
    replacementFormatQuality (some 1080) = some "1080p".toList ∧
    formatQuality (some 2200) = some "4K".toList ∧
    replacementFormatQuality (some 2200) = some "4K".toList ∧
    formatQuality none = none ∧
    replacementFormatQuality none = none := by
  decide

/-! ### C7: format classification -/

/-- C7 counterexample.  The claim says classification is a pure function of
the URL with `/a/b.mp4 ↦ NONE`; in the code a non-DASH URL is handed to the
HLS engine whenever streaming mode is on, so `/a/b.mp4` classifies as HLS
with streaming on and NONE only with streaming off. -/
theorem c7_counterexample_mp4_not_always_none :
    classifyFormat true "/a/b.mp4".toList = EngineKind.HLS ∧
    classifyFormat false "/a/b.mp4".toList = EngineKind.NONE := by
  decide

/-- C7 (amended).  DASH detection is a pure pattern function of the URL
(lowercased: ends with `.mpd`, contains `/dash/` or `format=dash`); with
streaming mode on a DASH URL maps to DASH and every other URL to HLS; with
streaming mode off every URL plays progressively (NONE).  The spec examples
hold under streaming mode on / off respectively. -/
theorem c7_amended_classification :
    classifyFormat true "https://x/video.mpd".toList = EngineKind.DASH ∧
    classifyFormat true "/a/b.m3u8".toList = EngineKind.HLS ∧
    classifyFormat false "/a/b.mp4".toList = EngineKind.NONE ∧
    isDashStream "https://x/video.mpd".toList = true ∧
    isDashStream "/a/b.m3u8".toList = false ∧
    isDashStream "/a/b.mp4".toList = false ∧
    (∀ url, classifyFormat true url = if isDashStream url then EngineKind.DASH else EngineKind.HLS) ∧
    (∀ url, classifyFormat false url = EngineKind.NONE) := by
  refine ⟨by decide, by decide, by decide, by decide, by decide, by decide, ?_, ?_⟩
  · intro url; simp [classifyFormat]
  · intro url; simp [classifyFormat]

/-! ### C4: lazy-load policy -/

/-- If the listener is not attached, further `play` events do nothing. -/
theorem runPlayEvents_detached (n : Nat) (s : PlayListenerState)
    (h : s.attached = false) : runPlayEvents n s = s := by
  induction n with
  | zero => rfl
  | succ m ih => simp [runPlayEvents, onPlayHandlerStep, h, ih]

/-- C4.  The claim (and the comment right next to the option) says segment
loading must not begin at initialization and is to be triggered only by the
first `play`.  The configuration actually passed is `autoStartLoad: true`
(in `setupHlsPlayer` and in `replaceDefaultVideoPlayer`), so hls.js starts
loading at attach time.  The second half of the claim is accurate: the play
listener removes itself after its first firing, so over any number of play
events it calls `startLoad` at most once. -/
theorem c4_autostartload_true_segments_load_at_init :
    setupHlsPlayerConfig.autoStartLoad = true ∧
    replaceDefaultVideoPlayerHlsConfig.autoStartLoad = true ∧
    loadingStartsAtInit setupHlsPlayerConfig = true ∧
    (∀ n : Nat,
      (runPlayEvents n { attached := true, startLoadCalls := 0 }).startLoadCalls ≤ 1) := by
  refine ⟨rfl, rfl, rfl, ?_⟩
  intro n
  cases n with
  | zero => decide
  | succ m =>
    have h : runPlayEvents (m + 1) { attached := true, startLoadCalls := 0 } =
        ({ attached := false, startLoadCalls := 1 } : PlayListenerState) := by
      simp [runPlayEvents, onPlayHandlerStep]
      exact runPlayEvents_detached m _ rfl
    simp [h]

/-! ### C3: CSP detection from video-element errors -/

/-- C3.  For an error observed by the active session (engine handle stored,
main element) with no CSP error recorded yet, both `handleVideoError`
implementations set the CSP error state exactly when the error code is 4 and
the message contains "URL safety check"; an error with code 2 never changes
the state, for any message and any session state. -/
theorem c3_csp_error_iff_code4_and_phrase (code : Nat) (msg : Str) (s : SessionErrorState)
    (hActive : s.instanceActive = true) (hMain : s.isMainElement = true)
    (hNone : s.cspError = none) :
    ((handleVideoError code msg s).cspError.isSome ↔
      (code = 4 ∧ containsSub msg "URL safety check".toList = true)) ∧
    ((dashHandleVideoError code msg s).cspError.isSome ↔
      (code = 4 ∧ containsSub msg "URL safety check".toList = true)) ∧
    (∀ (m : Str) (s2 : SessionErrorState),
      handleVideoError 2 m s2 = s2 ∧ dashHandleVideoError 2 m s2 = s2) := by
  have hguard : (s.instanceActive && s.isMainElement) = true := by
    rw [hActive, hMain]; rfl
  refine ⟨?_, ?_, ?_⟩
  · unfold handleVideoError
    by_cases h4 : code = 4
    · rw [if_pos h4]
      by_cases hm : containsSub msg "URL safety check".toList = true
      · rw [if_pos hm, if_pos hguard]
        simp [setCspError, hNone, h4, hm]
        exact hm
      · rw [if_neg hm]
        simp [hNone, h4, hm]
        simpa using hm
    · rw [if_neg h4]
      simp [hNone, h4]
  · unfold dashHandleVideoError
    by_cases h4 : code = 4
    · rw [if_pos h4]
      by_cases hm : containsSub msg "URL safety check".toList = true
      · rw [if_pos hm, if_pos hguard]
        simp [setCspError, hNone, h4, hm]
        exact hm
      · rw [if_neg hm]
        simp [hNone, h4, hm]
        simpa using hm
    · rw [if_neg h4]
      simp [hNone, h4]
  · intro m s2
    constructor <;> simp [handleVideoError, dashHandleVideoError]

/-- C3 witness: a code-4 error whose message carries the phrase, on an active
session, sets the CSP state; delivered through the theorem at concrete
inputs. -/
theorem c3_csp_error_witness :
    ((handleVideoError 4 "Media load rejected by URL safety check".toList
        { instanceActive := true, isMainElement := true, cspError := none }).cspError.isSome ↔
      (4 = 4 ∧ containsSub "Media load rejected by URL safety check".toList
        "URL safety check".toList = true)) ∧
    ((dashHandleVideoError 4 "Media load rejected by URL safety check".toList
        { instanceActive := true, isMainElement := true, cspError := none }).cspError.isSome ↔
      (4 = 4 ∧ containsSub "Media load rejected by URL safety check".toList
        "URL safety check".toList = true)) ∧
    (∀ (m : Str) (s2 : SessionErrorState),
      handleVideoError 2 m s2 = s2 ∧ dashHandleVideoError 2 m s2 = s2) :=
  c3_csp_error_iff_code4_and_phrase 4 "Media load rejected by URL safety check".toList
    { instanceActive := true, isMainElement := true, cspError := none } rfl rfl rfl

/-! ### C8: absolute references -/

/-- C8 counterexample.  The claim says every reference that starts with a
scheme is returned unchanged; the code only bypasses `http://`/`https://`,
so an `ftp://` reference goes through the template logic and comes back
rewritten. -/
theorem c8_counterexample_ftp_not_bypassed :
    getStreamUrl (fun _ => List.replicate 16 0) 0
      { origin := "https://origin".toList, apiBaseUrl := [] }
      { hostUrl := "https://example.com".toList, urlSchema := [], streamSecret := [],
        includeIp := false, expiresInMinutes := none }
      "ftp://cdn/x.m3u8".toList
      = some "https://example.com/ftp://cdn/x.m3u8".toList ∧
    "https://example.com/ftp://cdn/x.m3u8".toList ≠ "ftp://cdn/x.m3u8".toList := by
  constructor
  · decide
  · decide

/-- C8 (amended).  A reference that starts with `http://` or `https://` is
returned unchanged by `getStreamUrl`, for every configuration, clock and
digest function. -/
theorem c8_amended_http_absolute_bypass (md5 : Str → List Nat) (now : Nat)
    (env : StreamEnv) (options : StreamUrlOptions) (streamLink : Str)
    (h : (startsWith "http://".toList streamLink ||
          startsWith "https://".toList streamLink) = true) :
    getStreamUrl md5 now env options streamLink = some streamLink := by
  have hne : ¬ streamLink = [] := by
    intro he
    subst he
    exact absurd h (by decide)
  unfold getStreamUrl
  rw [if_neg hne, if_pos h]

/-- C8 witness: a concrete `https://` reference is returned unchanged under a
fully populated configuration. -/
theorem c8_amended_witness :
    getStreamUrl (fun _ => List.replicate 16 0) 1700000000000
      { origin := "https://origin".toList, apiBaseUrl := [] }
      { hostUrl := "https://example.com/stream/".toList, urlSchema := "x".toList,
        streamSecret := "mysecret".toList, includeIp := true, expiresInMinutes := some 60 }
      "https://cdn.example/x.m3u8".toList
      = some "https://cdn.example/x.m3u8".toList :=
  c8_amended_http_absolute_bypass _ _ _ _ _ (by decide)

/-! ### C2: at most one live engine per element -/

/-- `cleanupHls` leaves no stored handle and no live engine. -/
theorem cleanupHls_resets (s : HlsPlayerState) (h : engineInv s) :
    (cleanupHls s).hlsInstance = none ∧ (cleanupHls s).liveEngines = [] := by
  rcases h with ⟨h1, h2⟩ | ⟨hh, h1, h2⟩ <;>
    simp [cleanupHls, h1, h2, List.erase_cons_head]

/-- Starting from a disposed state, `setupHlsPlayer` re-establishes the
invariant (it creates at most one engine and stores it). -/
theorem setupHlsPlayerState_fresh_inv (sup nat : Bool) (url : Str) (fb : Option Str)
    (s : HlsPlayerState) (h1 : s.hlsInstance = none) (h2 : s.liveEngines = []) :
    engineInv (setupHlsPlayerState sup nat url fb s) := by
  unfold setupHlsPlayerState
  split_ifs with hA hB
  · exact Or.inr ⟨s.nextId, rfl, by simp [h2]⟩
  · exact Or.inl ⟨h1, h2⟩
  · rcases fb with _ | src
    · exact Or.inl ⟨h1, h2⟩
    · exact Or.inl ⟨h1, h2⟩

/-- Every `setupVideoPlayer` call preserves the engine invariant: each branch
that can create an engine runs `cleanupHls` first. -/
theorem setupVideoPlayer_inv (a : SetupArgs) (s : HlsPlayerState) (h : engineInv s) :
    engineInv (setupVideoPlayer a s) := by
  obtain ⟨hc1, hc2⟩ := cleanupHls_resets s h
  unfold setupVideoPlayer
  repeat' split
  all_goals
    first
      | exact h
      | exact Or.inl ⟨hc1, hc2⟩
      | exact setupHlsPlayerState_fresh_inv _ _ _ _ _ hc1 hc2

/-- Reachability preserves the invariant. -/
theorem reachable_engineInv {s : HlsPlayerState} (h : PlayerReachable s) : engineInv s := by
  induction h with
  | init => exact Or.inl ⟨rfl, rfl⟩
  | step _ hstep ih =>
    cases hstep with
    | setup a s0 => exact setupVideoPlayer_inv _ _ ih
    | cleanup s0 => exact Or.inl (cleanupHls_resets _ ih)

/-- C2.  At every state reachable through `setupVideoPlayer` / `cleanupHls`
calls, at most one non-disposed adaptive-engine instance is bound to the
element: each setup call disposes the stored handle before creating a new
engine, so the live-engine count never exceeds one. -/
theorem c2_at_most_one_live_engine (s : HlsPlayerState) (h : PlayerReachable s) :
    s.liveEngines.length ≤ 1 := by
  rcases reachable_engineInv h with ⟨_, h2⟩ | ⟨hh, _, h2⟩ <;> simp [h2]

/-- C2 witness: the state after one HLS setup call on the initial state is
reachable and carries at most one live engine. -/
theorem c2_at_most_one_live_engine_witness :
    (setupVideoPlayer
      { videoElementPresent := true, isStringField := true, shouldReplaceDefaultPlayer := false,
        useHls := true, streamUrlFromValue := some "/s.m3u8".toList, mp4Url := none,
        fileDataPresent := false, streamLinkFieldName := [], streamLinkValue := none,
        resolvedStreamUrl := none, videoUrl := none, hlsSupported := true, canPlayNative := false }
      initialPlayerState).liveEngines.length ≤ 1 :=
  c2_at_most_one_live_engine _
    (PlayerReachable.step PlayerReachable.init (PlayerStep.setup _ _))

/-! ### C9: adoption idempotency -/

/-- C9.  Adopting a fresh host element with a stream configured marks it and
inserts exactly one info overlay and one toggle button; a second adoption of
the marked element updates the binding in place: it inserts no second
overlay/toggle and keeps at most one live replacement engine (the first is
destroyed before a new one is created). -/
theorem c9_adoption_idempotent (p : AdoptParams) (s : AdoptState)
    (hmark : s.marked = false) (hov : s.infoOverlayCount = 0) (htog : s.toggleButtonCount = 0)
    (hhls : s.replacementHls = false) (hdash : s.replacementDash = false)
    (hc : p.containerPresent = true) (hv : p.videoPresent = true)
    (hs : p.streamUrl.isSome = true) :
    (replaceDefaultVideoPlayer p s).marked = true ∧
    (replaceDefaultVideoPlayer p s).infoOverlayCount = 1 ∧
    (replaceDefaultVideoPlayer p s).toggleButtonCount = 1 ∧
    liveReplacementEngines (replaceDefaultVideoPlayer p s) ≤ 1 ∧
    (replaceDefaultVideoPlayer p (replaceDefaultVideoPlayer p s)).marked = true ∧
    (replaceDefaultVideoPlayer p (replaceDefaultVideoPlayer p s)).infoOverlayCount = 1 ∧
    (replaceDefaultVideoPlayer p (replaceDefaultVideoPlayer p s)).toggleButtonCount = 1 ∧
    liveReplacementEngines (replaceDefaultVideoPlayer p (replaceDefaultVideoPlayer p s)) ≤ 1 := by
  rcases hurl : p.streamUrl with _ | url
  · rw [hurl] at hs; simp at hs
  · cases hd : isDashStream url <;> cases hsup : p.hlsSupported <;>
      cases huse : p.useHls <;> cases hmp : p.mp4Url <;>
      simp [hmp, replaceDefaultVideoPlayer, updateReplacementPlayer,
        addInfoOverlayToReplacementPlayer, addToggleButtonToFilePreview,
        liveReplacementEngines, hc, hv, hmark, hurl, hov, htog, hhls, hdash, hd, hsup, huse]

/-- C9 witness: concrete double adoption of a fresh element with an HLS
stream. -/
theorem c9_adoption_idempotent_witness :
    (replaceDefaultVideoPlayer
      { containerPresent := true, videoPresent := true, streamUrl := some "/s.m3u8".toList,
        mp4Url := none, useHls := true, hlsSupported := true }
      { marked := false, videoBound := false, infoOverlayCount := 0, toggleButtonCount := 0,
        replacementHls := false, replacementDash := false, videoSrc := none }).toggleButtonCount
      = 1 ∧
    (replaceDefaultVideoPlayer
      { containerPresent := true, videoPresent := true, streamUrl := some "/s.m3u8".toList,
        mp4Url := none, useHls := true, hlsSupported := true }
      (replaceDefaultVideoPlayer
        { containerPresent := true, videoPresent := true, streamUrl := some "/s.m3u8".toList,
          mp4Url := none, useHls := true, hlsSupported := true }
        { marked := false, videoBound := false, infoOverlayCount := 0, toggleButtonCount := 0,
          replacementHls := false, replacementDash := false,
          videoSrc := none })).infoOverlayCount = 1 := by
  have h := c9_adoption_idempotent
    { containerPresent := true, videoPresent := true, streamUrl := some "/s.m3u8".toList,
      mp4Url := none, useHls := true, hlsSupported := true }
    { marked := false, videoBound := false, infoOverlayCount := 0, toggleButtonCount := 0,
      replacementHls := false, replacementDash := false, videoSrc := none }
    rfl rfl rfl rfl rfl rfl rfl rfl
  exact ⟨h.2.2.1, h.2.2.2.2.2.1⟩

/-! ### C10: includeClientIp never influences the URL -/

/-- With the IP the source actually supplies (the empty string when
`includeIp` is on, `null` otherwise), the digest input is the same. -/
theorem generateSecurePathHash_ip_irrelevant (md5 : Str → List Nat) (e sec : Str) :
    generateSecurePathHash md5 e (some []) sec true =
    generateSecurePathHash md5 e none sec false := by
  unfold generateSecurePathHash
  simp

/-- C10.  For every digest function, clock, environment, configuration and
reference, `getStreamUrl` with `includeIp = true` returns exactly the same
result as with `includeIp = false`: the client IP passed to the hash is
always the empty string, which is falsy, so the digest input never contains
an IP segment. -/
theorem c10_includeIp_never_influences_url (md5 : Str → List Nat) (now : Nat)
    (env : StreamEnv) (hostUrl urlSchema streamSecret : Str) (em : Option Nat)
    (streamLink : Str) :
    getStreamUrl md5 now env
      { hostUrl := hostUrl, urlSchema := urlSchema, streamSecret := streamSecret,
        includeIp := true, expiresInMinutes := em } streamLink =
    getStreamUrl md5 now env
      { hostUrl := hostUrl, urlSchema := urlSchema, streamSecret := streamSecret,
        includeIp := false, expiresInMinutes := em } streamLink := by
  unfold getStreamUrl
  simp [generateSecurePathHash_ip_irrelevant]

/-- C5 (amended).  With no secret configured and a non-empty, non-absolute
reference, `getStreamUrl` always returns a URL, and that URL contains neither
`{{token}}` nor `{{expires}}` — provided the reference and the resolved host
are brace-free and the url schema and the host template are concatenations of
brace-free text and whole recognized placeholders.  The unamended claim fails
because a reference containing a literal placeholder is appended verbatim. -/
theorem c5_amended (md5 : Str → List Nat) (now : Nat) (env : StreamEnv)
    (options : StreamUrlOptions) (streamLink : Str)
    (hsecret : options.streamSecret = [])
    (hne : streamLink ≠ [])
    (habs : (startsWith "http://".toList streamLink ||
      startsWith "https://".toList streamLink) = false)
    (href : braceFree streamLink)
    (hhost : braceFree (stripTrailingSlashes (resolveHostUrl env options.hostUrl)))
    (hschemaSeg : Seg [hostUrlPH, tokenPH, expiresPH, itemPH]
      ((decodePercent options.urlSchema).getD options.urlSchema))
    (htplSeg : Seg [tokenPH, expiresPH, itemPH]
      (stripTrailingSlashes ((decodePercent (resolveHostUrl env options.hostUrl)).getD
        (resolveHostUrl env options.hostUrl)))) :
    ∃ url : Str, getStreamUrl md5 now env options streamLink = some url ∧
      containsSub url tokenPH = false ∧ containsSub url expiresPH = false := by
  have htokHead : ∃ ps, tokenPH = '{' :: ps := ⟨"\x7btoken\x7d\x7d".toList, by decide⟩
  have hexpHead : ∃ ps, expiresPH = '{' :: ps := ⟨"\x7bexpires\x7d\x7d".toList, by decide⟩
  have hitemHead : ∃ ps, itemPH = '{' :: ps := ⟨"\x7bitem_field\x7d\x7d".toList, by decide⟩
  have hhostHead : ∃ ps, hostUrlPH = '{' :: ps := ⟨"\x7bhost_url\x7d\x7d".toList, by decide⟩
  have hnilBF : braceFree ([] : Str) := fun c hc => absurd hc (List.not_mem_nil c)
  have hslashBF : braceFree (['/'] : Str) := by intro c hc; simp at hc; subst hc; decide
  unfold getStreamUrl
  rw [if_neg hne]
  rw [if_neg (show ¬ (startsWith "http://".toList streamLink ||
    startsWith "https://".toList streamLink) = true by rw [habs]; simp)]
  by_cases hus : options.urlSchema ≠ []
  · -- url_schema branch
    rw [if_pos hus]
    simp only [hsecret]
    have hstep : ∀ q ∈ [hostUrlPH, tokenPH, expiresPH, itemPH], q ≠ hostUrlPH →
        ∀ rest, replaceAll hostUrlPH (stripTrailingSlashes (resolveHostUrl env options.hostUrl)) (q ++ rest) =
          q ++ replaceAll hostUrlPH (stripTrailingSlashes (resolveHostUrl env options.hostUrl)) rest := by
      intro q hq hqne rest
      simp only [List.mem_cons, List.not_mem_nil, or_false] at hq
      rcases hq with rfl | rfl | rfl | rfl
      · exact absurd rfl hqne
      · exact replaceAll_append_seg _ _ _ phw_tok_host rest
      · exact replaceAll_append_seg _ _ _ phw_exp_host rest
      · exact replaceAll_append_seg _ _ _ phw_item_host rest
    have hB0 : ∀ q ∈ [hostUrlPH, tokenPH, expiresPH, itemPH], q ≠ hostUrlPH →
        q ∈ [tokenPH, expiresPH, itemPH] := by
      intro q hq hqne
      simp only [List.mem_cons, List.not_mem_nil, or_false] at hq
      rcases hq with rfl | rfl | rfl | rfl
      · exact absurd rfl hqne
      · exact List.mem_cons_self _ _
      · exact List.mem_cons_of_mem _ (List.mem_cons_self _ _)
      · exact List.mem_cons_of_mem _ (List.mem_cons_of_mem _ (List.mem_cons_self _ _))
    have hsegS2 : Seg [tokenPH, expiresPH, itemPH]
        (replaceAll hostUrlPH (stripTrailingSlashes (resolveHostUrl env options.hostUrl))
          ((decodePercent options.urlSchema).getD options.urlSchema)) :=
      Seg_replaceAll hschemaSeg hostUrlPH _ (by decide) hhost hhostHead hstep hB0
    generalize hS2eq : replaceAll hostUrlPH (stripTrailingSlashes (resolveHostUrl env options.hostUrl))
      ((decodePercent options.urlSchema).getD options.urlSchema) = S2
    rw [hS2eq] at hsegS2
    have hN : braceFree (if startsWith ['/'] streamLink = true then
        List.drop 1 streamLink else streamLink) := by
      split_ifs
      · exact fun c hc => href c (List.mem_of_mem_drop hc)
      · exact href
    generalize hNeq : (if startsWith ['/'] streamLink = true then
      List.drop 1 streamLink else streamLink) = N
    rw [hNeq] at hN
    simp only [if_true]
    have hstepItem : ∀ q ∈ [tokenPH, expiresPH, itemPH], q ≠ itemPH →
        ∀ rest, replaceAll itemPH N (q ++ rest) = q ++ replaceAll itemPH N rest := by
      intro q hq hqne rest
      simp only [List.mem_cons, List.not_mem_nil, or_false] at hq
      rcases hq with rfl | rfl | rfl
      · exact replaceAll_append_seg _ _ _ phw_tok_item rest
      · exact replaceAll_append_seg _ _ _ phw_exp_item rest
      · exact absurd rfl hqne
    by_cases hi : containsSub S2 itemPH = true
    · -- item placeholder present: S3 = item-substituted
      simp only [hi, if_true, Bool.not_true, Bool.false_eq_true, if_false]
      have hsegS3 : Seg [tokenPH, expiresPH] (replaceAll itemPH N S2) :=
        Seg_replaceAll hsegS2 itemPH N (by decide) hN hitemHead hstepItem (by
          intro q hq hqne
          simp only [List.mem_cons, List.not_mem_nil, or_false] at hq
          rcases hq with rfl | rfl | rfl
          · exact List.mem_cons_self _ _
          · exact List.mem_cons_of_mem _ (List.mem_cons_self _ _)
          · exact absurd rfl hqne)
      by_cases hte : (containsSub S2 tokenPH || containsSub S2 expiresPH) = true
      · rw [if_pos hte]
        have hsegR1 : Seg [expiresPH] (replaceAll tokenPH [] (replaceAll itemPH N S2)) :=
          Seg_replaceAll hsegS3 tokenPH [] (by decide) hnilBF htokHead (by
            intro q hq hqne rest
            simp only [List.mem_cons, List.not_mem_nil, or_false] at hq
            rcases hq with rfl | rfl
            · exact absurd rfl hqne
            · exact replaceAll_append_seg _ _ _ phw_exp_tok rest) (by
            intro q hq hqne
            simp only [List.mem_cons, List.not_mem_nil, or_false] at hq
            rcases hq with rfl | rfl
            · exact absurd rfl hqne
            · exact List.mem_cons_self _ _)
        have hsegR2 : Seg ([] : List Str)
            (replaceAll expiresPH [] (replaceAll tokenPH [] (replaceAll itemPH N S2))) :=
          Seg_replaceAll hsegR1 expiresPH [] (by decide) hnilBF hexpHead (by
            intro q hq hqne rest
            simp only [List.mem_cons, List.not_mem_nil, or_false] at hq
            rcases hq with rfl
            · exact absurd rfl hqne) (by
            intro q hq hqne
            simp only [List.mem_cons, List.not_mem_nil, or_false] at hq
            rcases hq with rfl
            · exact absurd rfl hqne)
        refine ⟨_, rfl, ?_, ?_⟩
        · exact Seg_not_contains hsegR2 tokenPH htokHead
            (fun q hq => absurd hq (List.not_mem_nil q))
        · exact Seg_not_contains hsegR2 expiresPH hexpHead
            (fun q hq => absurd hq (List.not_mem_nil q))
      · rw [if_neg hte]
        rw [Bool.not_eq_true, Bool.or_eq_false_iff] at hte
        have hsegE1 : Seg [expiresPH, itemPH] S2 := by
          refine Seg_erase hsegS2 tokenPH ?_ hte.1
          intro q hq hqne
          simp only [List.mem_cons, List.not_mem_nil, or_false] at hq
          rcases hq with rfl | rfl | rfl
          · exact absurd rfl hqne
          · exact List.mem_cons_self _ _
          · exact List.mem_cons_of_mem _ (List.mem_cons_self _ _)
        have hsegE : Seg [itemPH] S2 := by
          refine Seg_erase hsegE1 expiresPH ?_ hte.2
          intro q hq hqne
          simp only [List.mem_cons, List.not_mem_nil, or_false] at hq
          rcases hq with rfl | rfl
          · exact absurd rfl hqne
          · exact List.mem_cons_self _ _
        have hsegS3b : Seg ([] : List Str) (replaceAll itemPH N S2) :=
          Seg_replaceAll hsegE itemPH N (by decide) hN hitemHead (by
            intro q hq hqne rest
            simp only [List.mem_cons, List.not_mem_nil, or_false] at hq
            rcases hq with rfl
            · exact absurd rfl hqne) (by
            intro q hq hqne
            simp only [List.mem_cons, List.not_mem_nil, or_false] at hq
            rcases hq with rfl
            · exact absurd rfl hqne)
        refine ⟨_, rfl, ?_, ?_⟩
        · exact Seg_not_contains hsegS3b tokenPH htokHead
            (fun q hq => absurd hq (List.not_mem_nil q))
        · exact Seg_not_contains hsegS3b expiresPH hexpHead
            (fun q hq => absurd hq (List.not_mem_nil q))
    · -- no item placeholder: S3 = S2, reference appended at the end
      have hif : containsSub S2 itemPH = false := by
        rw [← Bool.not_eq_true]; exact hi
      simp only [hif, Bool.false_eq_true, if_false, Bool.not_false, if_true]
      by_cases hte : (containsSub S2 tokenPH || containsSub S2 expiresPH) = true
      · rw [if_pos hte]
        have hsegR1 : Seg [expiresPH, itemPH] (replaceAll tokenPH [] S2) :=
          Seg_replaceAll hsegS2 tokenPH [] (by decide) hnilBF htokHead (by
            intro q hq hqne rest
            simp only [List.mem_cons, List.not_mem_nil, or_false] at hq
            rcases hq with rfl | rfl | rfl
            · exact absurd rfl hqne
            · exact replaceAll_append_seg _ _ _ phw_exp_tok rest
            · exact replaceAll_append_seg _ _ _ phw_item_tok rest) (by
            intro q hq hqne
            simp only [List.mem_cons, List.not_mem_nil, or_false] at hq
            rcases hq with rfl | rfl | rfl
            · exact absurd rfl hqne
            · exact List.mem_cons_self _ _
            · exact List.mem_cons_of_mem _ (List.mem_cons_self _ _))
        have hsegR2 : Seg [itemPH] (replaceAll expiresPH [] (replaceAll tokenPH [] S2)) :=
          Seg_replaceAll hsegR1 expiresPH [] (by decide) hnilBF hexpHead (by
            intro q hq hqne rest
            simp only [List.mem_cons, List.not_mem_nil, or_false] at hq
            rcases hq with rfl | rfl
            · exact absurd rfl hqne
            · exact replaceAll_append_seg _ _ _ phw_item_exp rest) (by
            intro q hq hqne
            simp only [List.mem_cons, List.not_mem_nil, or_false] at hq
            rcases hq with rfl | rfl
            · exact absurd rfl hqne
            · exact List.mem_cons_self _ _)
        have hsegOut : Seg [itemPH]
            ((replaceAll expiresPH [] (replaceAll tokenPH [] S2) ++
              (if endsWith ['/'] (replaceAll expiresPH [] (replaceAll tokenPH [] S2)) = true
                then [] else ['/'])) ++ N) := by
          refine Seg_append (Seg_append hsegR2 ?_) (braceFree_Seg _ hN)
          split_ifs
          · exact Seg.nil
          · exact braceFree_Seg _ hslashBF
        have hwItem : ∀ q ∈ [itemPH], ∀ (rest2 : Str) (i : Nat), i < q.length →
            ¬ tokenPH.isPrefixOf (List.drop i q ++ rest2) = true := by
          intro q hq
          simp only [List.mem_cons, List.not_mem_nil, or_false] at hq
          subst hq
          exact phw_item_tok
        have hwItemE : ∀ q ∈ [itemPH], ∀ (rest2 : Str) (i : Nat), i < q.length →
            ¬ expiresPH.isPrefixOf (List.drop i q ++ rest2) = true := by
          intro q hq
          simp only [List.mem_cons, List.not_mem_nil, or_false] at hq
          subst hq
          exact phw_item_exp
        refine ⟨_, rfl, ?_, ?_⟩
        · exact Seg_not_contains hsegOut tokenPH htokHead hwItem
        · exact Seg_not_contains hsegOut expiresPH hexpHead hwItemE
      · rw [if_neg hte]
        rw [Bool.not_eq_true, Bool.or_eq_false_iff] at hte
        have hsegE1 : Seg [expiresPH, itemPH] S2 := by
          refine Seg_erase hsegS2 tokenPH ?_ hte.1
          intro q hq hqne
          simp only [List.mem_cons, List.not_mem_nil, or_false] at hq
          rcases hq with rfl | rfl | rfl
          · exact absurd rfl hqne
          · exact List.mem_cons_self _ _
          · exact List.mem_cons_of_mem _ (List.mem_cons_self _ _)
        have hsegE : Seg [itemPH] S2 := by
          refine Seg_erase hsegE1 expiresPH ?_ hte.2
          intro q hq hqne
          simp only [List.mem_cons, List.not_mem_nil, or_false] at hq
          rcases hq with rfl | rfl
          · exact absurd rfl hqne
          · exact List.mem_cons_self _ _
        have hsegOut : Seg [itemPH]
            ((S2 ++ (if endsWith ['/'] S2 = true then [] else ['/'])) ++ N) := by
          refine Seg_append (Seg_append hsegE ?_) (braceFree_Seg _ hN)
          split_ifs
          · exact Seg.nil
          · exact braceFree_Seg _ hslashBF
        have hwItem : ∀ q ∈ [itemPH], ∀ (rest2 : Str) (i : Nat), i < q.length →
            ¬ tokenPH.isPrefixOf (List.drop i q ++ rest2) = true := by
          intro q hq
          simp only [List.mem_cons, List.not_mem_nil, or_false] at hq
          subst hq
          exact phw_item_tok
        have hwItemE : ∀ q ∈ [itemPH], ∀ (rest2 : Str) (i : Nat), i < q.length →
            ¬ expiresPH.isPrefixOf (List.drop i q ++ rest2) = true := by
          intro q hq
          simp only [List.mem_cons, List.not_mem_nil, or_false] at hq
          subst hq
          exact phw_item_exp
        refine ⟨_, rfl, ?_, ?_⟩
        · exact Seg_not_contains hsegOut tokenPH htokHead hwItem
        · exact Seg_not_contains hsegOut expiresPH hexpHead hwItemE
  · rw [if_neg hus]
    simp only [hsecret]
    generalize hTeq : stripTrailingSlashes ((decodePercent (resolveHostUrl env options.hostUrl)).getD
      (resolveHostUrl env options.hostUrl)) = T
    rw [hTeq] at htplSeg
    have hSL2 : braceFree (if startsWith ['/'] streamLink = true then streamLink
        else '/' :: streamLink) := by
      split_ifs
      · exact href
      · intro c hc
        rcases List.mem_cons.mp hc with rfl | hc
        · decide
        · exact href c hc
    generalize hSL2eq : (if startsWith ['/'] streamLink = true then streamLink
      else '/' :: streamLink) = SL2
    rw [hSL2eq] at hSL2
    have hslv : braceFree (if startsWith ['/'] SL2 = true then List.drop 1 SL2 else SL2) := by
      split_ifs
      · exact fun c hc => hSL2 c (List.mem_of_mem_drop hc)
      · exact hSL2
    generalize hslveq : (if startsWith ['/'] SL2 = true then List.drop 1 SL2 else SL2) = slv
    rw [hslveq] at hslv
    simp only [decide_True, Bool.true_and]
    have hstripItem : ∀ q ∈ ([itemPH] : List Str), stripTrailingSlashes q = q := by
      intro q hq
      simp only [List.mem_cons, List.not_mem_nil, or_false] at hq
      subst hq
      decide
    have hwItem : ∀ q ∈ ([itemPH] : List Str), ∀ (rest2 : Str) (i : Nat), i < q.length →
        ¬ tokenPH.isPrefixOf (List.drop i q ++ rest2) = true := by
      intro q hq
      simp only [List.mem_cons, List.not_mem_nil, or_false] at hq
      subst hq
      exact phw_item_tok
    have hwItemE : ∀ q ∈ ([itemPH] : List Str), ∀ (rest2 : Str) (i : Nat), i < q.length →
        ¬ expiresPH.isPrefixOf (List.drop i q ++ rest2) = true := by
      intro q hq
      simp only [List.mem_cons, List.not_mem_nil, or_false] at hq
      subst hq
      exact phw_item_exp
    by_cases hte : (containsSub T tokenPH || containsSub T expiresPH) = true
    · have houter : (containsSub T tokenPH || containsSub T expiresPH ||
          containsSub T itemPH) = true := by
        rw [Bool.or_eq_true]
        exact Or.inl hte
      rw [if_pos houter, if_pos hte]
      by_cases hi : containsSub T itemPH = true
      · simp only [hi, if_true, Bool.not_true, Bool.false_eq_true, if_false]
        have hsegT2 : Seg [tokenPH, expiresPH] (replaceAll itemPH slv T) := by
          refine Seg_replaceAll htplSeg itemPH slv (by decide) hslv hitemHead ?_ ?_
          · intro q hq hqne rest
            simp only [List.mem_cons, List.not_mem_nil, or_false] at hq
            rcases hq with rfl | rfl | rfl
            · exact replaceAll_append_seg _ _ _ phw_tok_item rest
            · exact replaceAll_append_seg _ _ _ phw_exp_item rest
            · exact absurd rfl hqne
          · intro q hq hqne
            simp only [List.mem_cons, List.not_mem_nil, or_false] at hq
            rcases hq with rfl | rfl | rfl
            · exact List.mem_cons_self _ _
            · exact List.mem_cons_of_mem _ (List.mem_cons_self _ _)
            · exact absurd rfl hqne
        have hsegR1 : Seg [expiresPH] (replaceAll tokenPH [] (replaceAll itemPH slv T)) := by
          refine Seg_replaceAll hsegT2 tokenPH [] (by decide) hnilBF htokHead ?_ ?_
          · intro q hq hqne rest
            simp only [List.mem_cons, List.not_mem_nil, or_false] at hq
            rcases hq with rfl | rfl
            · exact absurd rfl hqne
            · exact replaceAll_append_seg _ _ _ phw_exp_tok rest
          · intro q hq hqne
            simp only [List.mem_cons, List.not_mem_nil, or_false] at hq
            rcases hq with rfl | rfl
            · exact absurd rfl hqne
            · exact List.mem_cons_self _ _
        have hsegR2 : Seg ([] : List Str)
            (replaceAll expiresPH [] (replaceAll tokenPH [] (replaceAll itemPH slv T))) := by
          refine Seg_replaceAll hsegR1 expiresPH [] (by decide) hnilBF hexpHead ?_ ?_
          · intro q hq hqne rest
            simp only [List.mem_cons, List.not_mem_nil, or_false] at hq
            rcases hq with rfl
            · exact absurd rfl hqne
          · intro q hq hqne
            simp only [List.mem_cons, List.not_mem_nil, or_false] at hq
            rcases hq with rfl
            · exact absurd rfl hqne
        have hsegOut : Seg ([] : List Str) (stripTrailingSlashes
            (replaceAll expiresPH [] (replaceAll tokenPH [] (replaceAll itemPH slv T)))) :=
          Seg_stripTrailingSlashes hsegR2 (fun q hq => absurd hq (List.not_mem_nil q))
        refine ⟨_, rfl, ?_, ?_⟩
        · exact Seg_not_contains hsegOut tokenPH htokHead
            (fun q hq => absurd hq (List.not_mem_nil q))
        · exact Seg_not_contains hsegOut expiresPH hexpHead
            (fun q hq => absurd hq (List.not_mem_nil q))
      · have hif : containsSub T itemPH = false := by
          rw [← Bool.not_eq_true]; exact hi
        simp only [hif, Bool.false_eq_true, if_false, Bool.not_false, if_true]
        have hsegR1 : Seg [expiresPH, itemPH] (replaceAll tokenPH [] T) := by
          refine Seg_replaceAll htplSeg tokenPH [] (by decide) hnilBF htokHead ?_ ?_
          · intro q hq hqne rest
            simp only [List.mem_cons, List.not_mem_nil, or_false] at hq
            rcases hq with rfl | rfl | rfl
            · exact absurd rfl hqne
            · exact replaceAll_append_seg _ _ _ phw_exp_tok rest
            · exact replaceAll_append_seg _ _ _ phw_item_tok rest
          · intro q hq hqne
            simp only [List.mem_cons, List.not_mem_nil, or_false] at hq
            rcases hq with rfl | rfl | rfl
            · exact absurd rfl hqne
            · exact List.mem_cons_self _ _
            · exact List.mem_cons_of_mem _ (List.mem_cons_self _ _)
        have hsegR2 : Seg [itemPH] (replaceAll expiresPH [] (replaceAll tokenPH [] T)) := by
          refine Seg_replaceAll hsegR1 expiresPH [] (by decide) hnilBF hexpHead ?_ ?_
          · intro q hq hqne rest
            simp only [List.mem_cons, List.not_mem_nil, or_false] at hq
            rcases hq with rfl | rfl
            · exact absurd rfl hqne
            · exact replaceAll_append_seg _ _ _ phw_item_exp rest
          · intro q hq hqne
            simp only [List.mem_cons, List.not_mem_nil, or_false] at hq
            rcases hq with rfl | rfl
            · exact absurd rfl hqne
            · exact List.mem_cons_self _ _
        have hsegOut : Seg [itemPH]
            (stripTrailingSlashes (replaceAll expiresPH [] (replaceAll tokenPH [] T)) ++ SL2) :=
          Seg_append (Seg_stripTrailingSlashes hsegR2 hstripItem) (braceFree_Seg _ hSL2)
        refine ⟨_, rfl, ?_, ?_⟩
        · exact Seg_not_contains hsegOut tokenPH htokHead hwItem
        · exact Seg_not_contains hsegOut expiresPH hexpHead hwItemE
    · have htef : (containsSub T tokenPH || containsSub T expiresPH) = false := by
        rw [← Bool.not_eq_true]; exact hte
      rw [Bool.or_eq_false_iff] at htef
      have hsegE1 : Seg [expiresPH, itemPH] T := by
        refine Seg_erase htplSeg tokenPH ?_ htef.1
        intro q hq hqne
        simp only [List.mem_cons, List.not_mem_nil, or_false] at hq
        rcases hq with rfl | rfl | rfl
        · exact absurd rfl hqne
        · exact List.mem_cons_self _ _
        · exact List.mem_cons_of_mem _ (List.mem_cons_self _ _)
      have hsegE : Seg [itemPH] T := by
        refine Seg_erase hsegE1 expiresPH ?_ htef.2
        intro q hq hqne
        simp only [List.mem_cons, List.not_mem_nil, or_false] at hq
        rcases hq with rfl | rfl
        · exact absurd rfl hqne
        · exact List.mem_cons_self _ _
      by_cases hi : containsSub T itemPH = true
      · have houter : (containsSub T tokenPH || containsSub T expiresPH ||
            containsSub T itemPH) = true := by
          rw [Bool.or_eq_true]
          exact Or.inr hi
        rw [if_pos houter]
        rw [if_neg (show ¬ (containsSub T tokenPH || containsSub T expiresPH) = true from hte)]
        simp only [hi, if_true, Bool.not_true, Bool.false_eq_true, if_false]
        rw [if_neg (show ¬ (containsSub T tokenPH || containsSub T expiresPH) = true from hte)]
        have hsegT2 : Seg ([] : List Str) (replaceAll itemPH slv T) := by
          refine Seg_replaceAll hsegE itemPH slv (by decide) hslv hitemHead ?_ ?_
          · intro q hq hqne rest
            simp only [List.mem_cons, List.not_mem_nil, or_false] at hq
            rcases hq with rfl
            · exact absurd rfl hqne
          · intro q hq hqne
            simp only [List.mem_cons, List.not_mem_nil, or_false] at hq
            rcases hq with rfl
            · exact absurd rfl hqne
        have hsegOut : Seg ([] : List Str)
            (stripTrailingSlashes (replaceAll itemPH slv T)) :=
          Seg_stripTrailingSlashes hsegT2 (fun q hq => absurd hq (List.not_mem_nil q))
        refine ⟨_, rfl, ?_, ?_⟩
        · exact Seg_not_contains hsegOut tokenPH htokHead
            (fun q hq => absurd hq (List.not_mem_nil q))
        · exact Seg_not_contains hsegOut expiresPH hexpHead
            (fun q hq => absurd hq (List.not_mem_nil q))
      · have hif : containsSub T itemPH = false := by
          rw [← Bool.not_eq_true]; exact hi
        have houter : (containsSub T tokenPH || containsSub T expiresPH ||
            containsSub T itemPH) = false := by
          rw [Bool.or_eq_false_iff]
          exact ⟨by rw [Bool.or_eq_false_iff]; exact htef, hif⟩
        rw [if_neg (by rw [houter]; simp)]
        have hsegE0 : Seg ([] : List Str) T := by
          refine Seg_erase hsegE itemPH ?_ hif
          intro q hq hqne
          simp only [List.mem_cons, List.not_mem_nil, or_false] at hq
          rcases hq with rfl
          · exact absurd rfl hqne
        have hsegOut : Seg ([] : List Str) (T ++ SL2) :=
          Seg_append hsegE0 (braceFree_Seg _ hSL2)
        refine ⟨_, rfl, ?_, ?_⟩
        · exact Seg_not_contains hsegOut tokenPH htokHead
            (fun q hq => absurd hq (List.not_mem_nil q))
        · exact Seg_not_contains hsegOut expiresPH hexpHead
            (fun q hq => absurd hq (List.not_mem_nil q))

/-- C5 counterexample.  With no secret configured, no url schema, host URL
`https://example.com`, and the non-empty, non-absolute reference
`/{{token}}.m3u8`, `getStreamUrl` returns
`https://example.com/{{token}}.m3u8`, which contains the literal substring
`{{token}}` — the claim's "never contains" is false because the reference is
appended verbatim and is never scanned for placeholders. -/
theorem c5_counterexample_reference_keeps_token :
    ∃ url : Str, getStreamUrl (fun _ => []) 0
      { origin := "https://d.local".toList
        apiBaseUrl := [] }
      { hostUrl := "https://example.com".toList
        urlSchema := []
        streamSecret := []
        includeIp := false
        expiresInMinutes := none }
      "/\x7b\x7btoken\x7d\x7d.m3u8".toList = some url ∧
      containsSub url tokenPH = true :=
  ⟨"https://example.com/\x7b\x7btoken\x7d\x7d.m3u8".toList, by decide, by decide⟩

/-- Witness for C5's amended theorem: a concrete secret-less configuration with
the full four-placeholder schema and reference `v.m3u8`; all hypotheses are
discharged by evaluation and an explicit segmentation of the schema. -/
theorem c5_amended_witness :
    ∃ url : Str, getStreamUrl (fun _ => []) 1700000000000
      { origin := "https://d.local".toList
        apiBaseUrl := "https://d.local/api".toList }
      { hostUrl := "https://example.com".toList
        urlSchema := "\x7b\x7bhost_url\x7d\x7d/\x7b\x7btoken\x7d\x7d/\x7b\x7bexpires\x7d\x7d/\x7b\x7bitem_field\x7d\x7d".toList
        streamSecret := []
        includeIp := false
        expiresInMinutes := none }
      "v.m3u8".toList = some url ∧
      containsSub url tokenPH = false ∧ containsSub url expiresPH = false := by
  have hseg1 : Seg [hostUrlPH, tokenPH, expiresPH, itemPH]
      ((decodePercent ("\x7b\x7bhost_url\x7d\x7d/\x7b\x7btoken\x7d\x7d/\x7b\x7bexpires\x7d\x7d/\x7b\x7bitem_field\x7d\x7d".toList : Str)).getD
        ("\x7b\x7bhost_url\x7d\x7d/\x7b\x7btoken\x7d\x7d/\x7b\x7bexpires\x7d\x7d/\x7b\x7bitem_field\x7d\x7d".toList : Str)) := by
    have h1 : ((decodePercent ("\x7b\x7bhost_url\x7d\x7d/\x7b\x7btoken\x7d\x7d/\x7b\x7bexpires\x7d\x7d/\x7b\x7bitem_field\x7d\x7d".toList : Str)).getD
        ("\x7b\x7bhost_url\x7d\x7d/\x7b\x7btoken\x7d\x7d/\x7b\x7bexpires\x7d\x7d/\x7b\x7bitem_field\x7d\x7d".toList : Str)) =
        hostUrlPH ++ ('/' :: (tokenPH ++ ('/' :: (expiresPH ++ ('/' :: (itemPH ++ [])))))) := by
      decide
    rw [h1]
    exact Seg.ph (by decide) (Seg.chr (by decide) (Seg.ph (by decide) (Seg.chr (by decide)
      (Seg.ph (by decide) (Seg.chr (by decide) (Seg.ph (by decide) Seg.nil))))))
  exact c5_amended (fun _ => []) 1700000000000
    { origin := "https://d.local".toList
      apiBaseUrl := "https://d.local/api".toList }
    { hostUrl := "https://example.com".toList
      urlSchema := "\x7b\x7bhost_url\x7d\x7d/\x7b\x7btoken\x7d\x7d/\x7b\x7bexpires\x7d\x7d/\x7b\x7bitem_field\x7d\x7d".toList
      streamSecret := []
      includeIp := false
      expiresInMinutes := none }
    "v.m3u8".toList rfl (by decide) (by decide) (by unfold braceFree; decide)
    (by unfold braceFree; decide) hseg1
    (braceFree_Seg _ (by unfold braceFree; decide))

end SVP
